import Mathlib

/-!
Verification of `unit_track_content_changes`.

This file gives a shallow embedding of the repository's core module
`src/unit_track_content_changes/update_content_dir.py` (the cache/rollback
guard, history lookup, and reconciler) and of the report script
`src/unit_track_content_changes/parse_changelog_and_create_report.py`,
and proves or refutes the specification claims about them.

Modelling conventions:
  - A file name is a (stem, extension) pair, matching `Path.stem` /
    `Path.suffix` for the simple dot-free stems this program uses.
  - A file's on-disk state is its text content (`String`, byte-for-byte)
    plus an mtime (`Nat`).  `filecmp.cmp` reads `(st_size, st_mtime)`
    signatures, so mtimes are part of the model; file sizes are modelled
    as content length.
  - A directory is an association list of named files; the history store
    is an association list from a numeric timestamp to a directory,
    mirroring the `content_<sortable timestamp>` naming scheme where
    lexical order of names equals chronological order of timestamps.
  - Fallible code (the `ValueError` in `_try_find_stem`) is embedded in
    `Except String`.
  - Side effects that do not touch the tracked state (stdout, the gvim
    diff subprocess) are not modelled.
-/

namespace UTCC

/-- A file name: `Path.stem` and the extension (without the dot). -/
structure FileName where
  stem : String
  ext : String
deriving DecidableEq

/-- On-disk state of one file: its text content and its mtime.
`filecmp.cmp`'s stat signature is `(S_IFMT, st_size, st_mtime)`;
size is modelled as `content.length`. -/
structure FileData where
  content : String
  mtime : Nat
deriving DecidableEq

/-- A directory: an association list of named files. -/
abbrev Dir := List (FileName × FileData)

/-- One line of `changelog.txt`: `filename\ttimestamp\tmsg`
(written by `_add_a_blank_entry_to_the_change_log`). -/
structure Entry where
  stem : String
  time : Nat
  msg : String
deriving DecidableEq

/-- The on-disk state the module operates on: `_CONTENT_DIR`,
`_CONTENT_CACHE_DIR` (`none` when the directory does not exist),
`_CONTENT_HISTORY_DIR` (timestamped snapshot directories), and
the changelog file. -/
structure FS where
  contentDir : Dir
  cacheDir : Option Dir
  historyDirs : List (Nat × Dir)
  changelog : List Entry
deriving DecidableEq

/-- `_try_find_stem(dir_, stem)`: `dir_.glob(f'{stem}.*')`; `None` when
no candidate, the unique candidate when there is exactly one, and a
`ValueError` (modelled as `Except.error`) when several files in the one
directory share the stem. -/
def try_find_stem (d : Dir) (s : String) : Except String (Option (FileName × FileData)) :=
  match d.filter (fun f => f.1.stem == s) with
  | [] => Except.ok none
  | [m] => Except.ok (some m)
  | _ => Except.error "Ambiguous state: Multiple matches for stem in dir"

/-- `sorted(_CONTENT_HISTORY_DIR.glob("content_*"), reverse=True)`:
snapshot directories sorted newest-first (lexical order of the
`content_<timestamp>` names equals chronological order). -/
def sort_dirs_desc (hist : List (Nat × Dir)) : List (Nat × Dir) :=
  hist.insertionSort (fun a b => b.1 ≤ a.1)

/-- The backward-search loop of `_find_latest`, over the already-sorted
directory list: first directory containing the stem decides; a
`.deleted` tombstone means "return None". -/
def find_latest_aux (s : String) : List (Nat × Dir) → Except String (Option (FileName × FileData))
  | [] => Except.ok none
  | (_, d) :: rest =>
    match try_find_stem d s with
    | Except.error e => Except.error e
    | Except.ok none => find_latest_aux s rest
    | Except.ok (some m) =>
      if m.1.ext == "deleted" then Except.ok none else Except.ok (some m)

/-- `_find_latest(name)`: search backwards through history for the latest
file with the given stem. -/
def find_latest (hist : List (Nat × Dir)) (s : String) : Except String (Option (FileName × FileData)) :=
  find_latest_aux s (sort_dirs_desc hist)

/-- Writing a file into a directory (overwrite when the name exists,
as `open("w")`, `shutil.copy` and `touch` all do). -/
def set_file (d : Dir) (f : FileName × FileData) : Dir :=
  if d.any (fun g => g.1 == f.1) then d.map (fun g => if g.1 == f.1 then f else g)
  else d ++ [f]

/-- `changes.mkdir(exist_ok=True)` followed by placing one artifact file
into that snapshot directory. -/
def add_to_history_dir (hist : List (Nat × Dir)) (t : Nat) (f : FileName × FileData) : List (Nat × Dir) :=
  if hist.any (fun e => e.1 == t) then
    hist.map (fun e => if e.1 == t then (e.1, set_file e.2 f) else e)
  else (t, [f]) :: hist

/-- `filecmp`'s stat signature restricted to regular files:
`(st_size, st_mtime)`. -/
def file_sig (f : FileData) : Nat × Nat := (f.content.length, f.mtime)

/-- `filecmp.cmp(f1, f2)` with the default `shallow=True`: equal stat
signatures short-circuit to `True` without reading bytes; otherwise
differing sizes give `False`, else the contents are compared. -/
def filecmp_cmp (a b : FileData) : Bool :=
  if file_sig a == file_sig b then true
  else if a.content.length != b.content.length then false
  else a.content == b.content

/-- The stems of the files in a directory (`{x.stem for x in dir.glob('*')}`
before deduplication). -/
def dir_stems (d : Dir) : List String := d.map (fun f => f.1.stem)

/-- `old_stems - new_stems` in `_compare_content_files`: stems present in
`_CONTENT_CACHE_DIR` but absent from the current content directory.
A missing cache directory globs to nothing. -/
def removed_stems (fs : FS) : List String :=
  ((dir_stems (fs.cacheDir.getD [])).dedup).filter
    (fun s => !(dir_stems fs.contentDir).contains s)

/-- One iteration of the `for new_file in new.glob('*')` loop of
`_compare_content_files`: look up the latest prior state; no prior
state means "file added" (changelog entry + copy into the snapshot
directory); a prior state failing `filecmp.cmp` means a modification
("#TODO" changelog entry + copy + gvim diff, the latter unmodelled);
otherwise no event.  `shutil.copy` stamps the copy with the current
time `t`. -/
def process_new_file (t : Nat) (fs : FS) (f : FileName × FileData) : Except String FS :=
  match find_latest fs.historyDirs f.1.stem with
  | Except.error e => Except.error e
  | Except.ok none =>
    Except.ok { fs with
      changelog := fs.changelog ++ [⟨f.1.stem, t, "file added"⟩],
      historyDirs := add_to_history_dir fs.historyDirs t (f.1, ⟨f.2.content, t⟩) }
  | Except.ok (some old) =>
    if filecmp_cmp old.2 f.2 then Except.ok fs
    else
      Except.ok { fs with
        changelog := fs.changelog ++ [⟨old.1.stem, t, "#TODO"⟩],
        historyDirs := add_to_history_dir fs.historyDirs t (f.1, ⟨f.2.content, t⟩) }

/-- One iteration of the removed-stems loop of `_compare_content_files`:
changelog entry "file removed" and an empty `<stem>.deleted` tombstone
touched into the snapshot directory. -/
def process_removed (t : Nat) (fs : FS) (s : String) : FS :=
  { fs with
    changelog := fs.changelog ++ [⟨s, t, "file removed"⟩],
    historyDirs := add_to_history_dir fs.historyDirs t (⟨s, "deleted"⟩, ⟨"", t⟩) }

/-- `_compare_content_files(old, new)` as invoked by `main` with
`old = _CONTENT_CACHE_DIR`, `new = _CONTENT_DIR` (the `old` parameter is
otherwise unused by the source: the removed-stems set reads the
module-level cache path directly).  `t` is the run's timestamp, naming
the would-be snapshot directory `content_<t>`. -/
def compare_content_files (t : Nat) (fs : FS) : Except String FS :=
  match fs.contentDir.foldlM (process_new_file t) fs with
  | Except.error e => Except.error e
  | Except.ok fs1 => Except.ok ((removed_stems fs1).foldl (process_removed t) fs1)

/-- `_move_content_to_cache()`: delete any pre-existing cache directory
(`shutil.rmtree`, missing suppressed), recreate it, move every content
file into it. -/
def move_content_to_cache (fs : FS) : FS :=
  { fs with cacheDir := some fs.contentDir, contentDir := [] }

/-- `_restore_cached_content()`: clear the content directory, move every
cache file back, delete the cache directory. -/
def restore_cached_content (fs : FS) : FS :=
  { fs with contentDir := fs.cacheDir.getD [], cacheDir := none }

/-- `_extract_file_content` for each manual file, writing
`<stem>.txt` into the content directory at time `t`.  `written` lists
the documents successfully extracted (all of them on success, the
prefix before the exception on failure). -/
def write_extracted (t : Nat) (d : Dir) (written : List (String × String)) : Dir :=
  written.foldl (fun d sc => set_file d (⟨sc.1, "txt"⟩, ⟨sc.2, t⟩)) d

/-- Outcome of `_extract_hse_manual_content`: the documents written to
the content directory, and whether the whole loop ran without an
exception. -/
structure Extraction where
  written : List (String × String)
  ok : Bool

/-- `main()`: cache the old content, extract, restore the cache on any
extraction exception, then always run `_compare_content_files`. -/
def main_run (t : Nat) (ex : Extraction) (fs : FS) : Except String FS :=
  let fs1 := move_content_to_cache fs
  let fs2 := { fs1 with contentDir := write_extracted t fs1.contentDir ex.written }
  let fs3 := if ex.ok then fs2 else restore_cached_content fs2
  compare_content_files t fs3

/-- `remove_empty()` (run at module import, i.e. before `main` in every
process invocation): rmdir every empty snapshot directory. -/
def remove_empty (fs : FS) : FS :=
  { fs with historyDirs := fs.historyDirs.filter (fun e => !e.2.isEmpty) }

/-- One process invocation of the script: the import-time
`remove_empty()` followed by `main()`. -/
def run_process (t : Nat) (ex : Extraction) (fs : FS) : Except String FS :=
  main_run t ex (remove_empty fs)

/-- Spec-side helper (not in the source): the raw first match of the
backward search, before `_find_latest`'s tombstone check.  Used to state
"the most recent history entry for this stem is a tombstone". -/
def first_match_aux (s : String) : List (Nat × Dir) → Except String (Option (FileName × FileData))
  | [] => Except.ok none
  | (_, d) :: rest =>
    match try_find_stem d s with
    | Except.error e => Except.error e
    | Except.ok none => first_match_aux s rest
    | Except.ok (some m) => Except.ok (some m)

/-- History directories newest-first hold pairwise strictly decreasing
timestamps: the shape real snapshot listings have (names are unique and
lexically sorted equals chronologically sorted). -/
abbrev HistOrdered (hist : List (Nat × Dir)) : Prop :=
  hist.Pairwise (fun a b => b.1 < a.1)

/-- `addArts hist t arts`: the history store after a reconciliation that
placed the artifact list `arts` into the (fresh) snapshot directory
`content_<t>` — no directory at all when no artifact was written. -/
def addArts (hist : List (Nat × Dir)) (t : Nat) (arts : Dir) : List (Nat × Dir) :=
  if arts.isEmpty then hist else (t, arts) :: hist

/-! ## The report script `parse_changelog_and_create_report.py` -/

/-- `filename2changes.setdefault(filename, []).append(content)`. -/
def add_change (m : List (String × List String)) (k v : String) : List (String × List String) :=
  if m.any (fun e => e.1 == k) then
    m.map (fun e => if e.1 == k then (e.1, e.2 ++ [v]) else e)
  else m ++ [(k, [v])]

/-- Parsing one changelog line: split on tabs, strip each field, and
unpack exactly three fields (`ValueError` otherwise). -/
def parse_entry_line (line : String) : Except String (String × String × String) :=
  match (line.splitOn "\t").map String.trim with
  | [a, b, c] => Except.ok (a, b, c)
  | _ => Except.error "ValueError: not three tab-separated fields"

/-- The entry-accumulation loop of `map_changes_to_filenames` over a
given list of lines. -/
def process_log_entries (lines : List String) : Except String (List (String × List String)) :=
  lines.foldlM (fun m line =>
    match parse_entry_line line with
    | Except.error e => Except.error e
    | Except.ok (f, _, c) => Except.ok (add_change m f c)) []

/-- `map_changes_to_filenames()`: read the changelog lines and process
`log_entries[1:]` — everything after the first line. -/
def map_changes_to_filenames (lines : List String) : Except String (List (String × List String)) :=
  process_log_entries (lines.drop 1)

/-! ## Basic lemmas about the monadic plumbing and `filecmp.cmp` -/

theorem except_ok_bind {ε α β : Type} (a : α) (f : α → Except ε β) :
    (Except.ok a >>= f) = f a := rfl

theorem except_error_bind {ε α β : Type} (e : ε) (f : α → Except ε β) :
    ((Except.error e : Except ε α) >>= f) = Except.error e := rfl

/-- `filecmp.cmp` with `shallow=True` returns `True` exactly when the
stat signatures agree (bytes unread) or the contents agree. -/
theorem filecmp_cmp_true_iff (a b : FileData) :
    filecmp_cmp a b = true ↔ (file_sig a = file_sig b ∨ a.content = b.content) := by
  unfold filecmp_cmp
  by_cases h : file_sig a = file_sig b
  · simp [h]
  · by_cases hl : a.content.length = b.content.length
    · simp [h, hl]
    · have hc : a.content ≠ b.content := fun hc => hl (by rw [hc])
      simp [h, hl, hc]

theorem filecmp_cmp_of_content_eq {a b : FileData} (h : a.content = b.content) :
    filecmp_cmp a b = true :=
  (filecmp_cmp_true_iff a b).mpr (Or.inr h)

/-- When the two mtimes differ the shallow shortcut cannot fire, and
`filecmp.cmp` degenerates to exact byte comparison. -/
theorem filecmp_cmp_of_mtime_ne {a b : FileData} (h : a.mtime ≠ b.mtime) :
    (filecmp_cmp a b = true ↔ a.content = b.content) := by
  rw [filecmp_cmp_true_iff]
  constructor
  · rintro (hs | hc)
    · exact absurd (congrArg Prod.snd hs) h
    · exact hc
  · exact Or.inr

/-! ## Lemmas about `_try_find_stem` and the history lookup -/

/-- Overwriting all name-matches with a file of a different stem does
not change which files match a stem glob. -/
theorem filter_map_overwrite (f : FileName × FileData) (s : String) (hs : f.1.stem ≠ s) :
    ∀ d : Dir,
      (d.map (fun g => if g.1 == f.1 then f else g)).filter (fun g => g.1.stem == s) =
      d.filter (fun g => g.1.stem == s)
  | [] => rfl
  | g :: gs => by
    simp only [List.map_cons, List.filter_cons]
    have h2 : (f.1.stem == s) = false := beq_eq_false_iff_ne.mpr hs
    by_cases hg : (g.1 == f.1) = true
    · have h3 : (g.1.stem == s) = false := by rw [beq_iff_eq.mp hg]; exact h2
      rw [if_pos hg, h2, h3]
      simp only [Bool.false_eq_true, if_false]
      exact filter_map_overwrite f s hs gs
    · rw [if_neg hg]
      by_cases hgs : (g.1.stem == s) = true
      · rw [if_pos hgs, if_pos hgs, filter_map_overwrite f s hs gs]
      · rw [if_neg hgs, if_neg hgs]
        exact filter_map_overwrite f s hs gs

/-- Writing a file for a different stem does not change which files in a
directory match a stem glob. -/
theorem filter_set_file_ne (d : Dir) (f : FileName × FileData) (s : String)
    (hs : f.1.stem ≠ s) :
    (set_file d f).filter (fun g => g.1.stem == s) = d.filter (fun g => g.1.stem == s) := by
  unfold set_file
  split
  · exact filter_map_overwrite f s hs d
  · rw [List.filter_append]
    have h2 : (f.1.stem == s) = false := beq_eq_false_iff_ne.mpr hs
    simp [h2]

theorem try_find_stem_set_file_ne (d : Dir) (f : FileName × FileData) (s : String)
    (hs : f.1.stem ≠ s) :
    try_find_stem (set_file d f) s = try_find_stem d s := by
  unfold try_find_stem
  rw [filter_set_file_ne d f s hs]

/-- Unfolding of the backward search over a cons cell. -/
theorem find_latest_aux_cons (s : String) (k : Nat) (d : Dir) (rest : List (Nat × Dir)) :
    find_latest_aux s ((k, d) :: rest) =
      match try_find_stem d s with
      | Except.error e => Except.error e
      | Except.ok none => find_latest_aux s rest
      | Except.ok (some m) =>
        if m.1.ext == "deleted" then Except.ok none else Except.ok (some m) := rfl

/-- A unique match: the characterisation of `_try_find_stem` returning a
file. -/
theorem try_find_stem_some {d : Dir} {s : String} {m : FileName × FileData}
    (h : try_find_stem d s = Except.ok (some m)) :
    m ∈ d ∧ m.1.stem = s := by
  unfold try_find_stem at h
  split at h
  · exact absurd h (by simp)
  · next m' heq =>
    have hm : m' = m := by injection h with h'; injection h'
    subst hm
    have : m' ∈ d.filter (fun g => g.1.stem == s) := by rw [heq]; exact List.mem_singleton.mpr rfl
    obtain ⟨hmem, hpred⟩ := List.mem_filter.mp this
    exact ⟨hmem, beq_iff_eq.mp hpred⟩
  · exact absurd h (by simp)

/-- A stem absent from every file of a directory is not found there. -/
theorem try_find_stem_none {d : Dir} {s : String} (h : ∀ g ∈ d, g.1.stem ≠ s) :
    try_find_stem d s = Except.ok none := by
  unfold try_find_stem
  have hf : d.filter (fun g => g.1.stem == s) = [] := by
    rw [List.filter_eq_nil_iff]
    intro g hg
    simp only [beq_iff_eq]
    exact h g hg
  rw [hf]

/-- Updating (or creating) the run's snapshot directory with an artifact
for a different stem does not change the backward search for a stem. -/
theorem find_latest_aux_map_update (t : Nat) (f : FileName × FileData) (s : String)
    (hs : f.1.stem ≠ s) :
    ∀ hist : List (Nat × Dir),
      find_latest_aux s (hist.map (fun e => if e.1 == t then (e.1, set_file e.2 f) else e)) =
      find_latest_aux s hist
  | [] => rfl
  | (k, d) :: rest => by
    simp only [List.map_cons]
    by_cases hk : (k, d).1 == t
    · rw [if_pos hk]
      show find_latest_aux s ((k, set_file d f) :: _) = _
      unfold find_latest_aux
      rw [try_find_stem_set_file_ne d f s hs]
      cases try_find_stem d s with
      | error e => rfl
      | ok o =>
        cases o with
        | none => exact find_latest_aux_map_update t f s hs rest
        | some m => rfl
    · rw [if_neg hk]
      show find_latest_aux s ((k, d) :: _) = _
      unfold find_latest_aux
      cases try_find_stem d s with
      | error e => rfl
      | ok o =>
        cases o with
        | none => exact find_latest_aux_map_update t f s hs rest
        | some m => rfl

/-- Placing an artifact for a different stem into the run's snapshot
directory leaves the backward search for a stem unchanged. -/
theorem find_latest_aux_add_ne (hist : List (Nat × Dir)) (t : Nat)
    (f : FileName × FileData) (s : String) (hs : f.1.stem ≠ s) :
    find_latest_aux s (add_to_history_dir hist t f) = find_latest_aux s hist := by
  unfold add_to_history_dir
  split
  · exact find_latest_aux_map_update t f s hs hist
  · rw [find_latest_aux_cons,
      try_find_stem_none (d := [f]) (by intro g hg; rw [List.mem_singleton.mp hg]; exact hs)]

/-- A file returned by the backward search lives in one of the searched
directories, has the searched stem, and is not a tombstone. -/
theorem find_latest_aux_mem {s : String} :
    ∀ {l : List (Nat × Dir)} {m : FileName × FileData},
      find_latest_aux s l = Except.ok (some m) →
      (∃ e ∈ l, m ∈ e.2) ∧ m.1.stem = s ∧ m.1.ext ≠ "deleted"
  | [], m, h => by simp [find_latest_aux] at h
  | (k, d) :: rest, m, h => by
    unfold find_latest_aux at h
    split at h
    · exact absurd h (by simp)
    · next heq =>
      obtain ⟨⟨e, he, hm⟩, hstem, hext⟩ := find_latest_aux_mem h
      exact ⟨⟨e, List.mem_cons_of_mem _ he, hm⟩, hstem, hext⟩
    · next m' heq =>
      split at h
      · exact absurd h (by simp)
      · next hdel =>
        have hm : m' = m := by injection h with h'; injection h'
        subst hm
        obtain ⟨hmem, hstem⟩ := try_find_stem_some heq
        exact ⟨⟨(k, d), List.mem_cons_self _ _, hmem⟩, hstem,
          fun hc => hdel (beq_iff_eq.mpr hc)⟩

/-- Empty snapshot directories are invisible to the backward search
(pruning them cannot change any lookup). -/
theorem find_latest_aux_filter_empty (s : String) :
    ∀ l : List (Nat × Dir),
      find_latest_aux s (l.filter (fun e => !e.2.isEmpty)) = find_latest_aux s l
  | [] => rfl
  | (k, d) :: rest => by
    rw [List.filter_cons]
    by_cases hd : d.isEmpty = true
    · have hdnil : d = [] := by
        cases d with
        | nil => rfl
        | cons a as => simp [List.isEmpty] at hd
      subst hdnil
      simp only [List.isEmpty_nil, Bool.not_true, Bool.false_eq_true, if_false]
      rw [find_latest_aux_filter_empty s rest, find_latest_aux_cons,
        try_find_stem_none (d := ([] : Dir)) (by intro g hg; cases hg)]
    · have hd' : (!d.isEmpty) = true := by
        cases hde : d.isEmpty
        · rfl
        · exact absurd hde hd
      rw [if_pos hd', find_latest_aux_cons, find_latest_aux_cons]
      cases try_find_stem d s with
      | error e => rfl
      | ok o =>
        cases o with
        | none => exact find_latest_aux_filter_empty s rest
        | some m => rfl

/-! ## Sortedness of history listings -/

/-- A strictly-descending history listing is already sorted, so the
`sorted(..., reverse=True)` in `_find_latest` is the identity on it. -/
theorem sort_dirs_desc_eq_self {hist : List (Nat × Dir)} (h : HistOrdered hist) :
    sort_dirs_desc hist = hist :=
  List.Sorted.insertionSort_eq (h.imp fun hab => le_of_lt hab)

theorem find_latest_eq_aux {hist : List (Nat × Dir)} (h : HistOrdered hist) (s : String) :
    find_latest hist s = find_latest_aux s hist := by
  unfold find_latest
  rw [sort_dirs_desc_eq_self h]

theorem hist_ordered_addArts {hist : List (Nat × Dir)} {t : Nat} (arts : Dir)
    (hord : HistOrdered hist) (hk : ∀ e ∈ hist, e.1 < t) :
    HistOrdered (addArts hist t arts) := by
  unfold addArts
  split
  · exact hord
  · exact List.Pairwise.cons (fun e he => hk e he) hord

theorem hist_ordered_filter {hist : List (Nat × Dir)} (p : Nat × Dir → Bool)
    (hord : HistOrdered hist) : HistOrdered (hist.filter p) :=
  List.Pairwise.sublist (List.filter_sublist hist) hord

/-! ## How one run grows a single fresh snapshot directory -/

/-- When the run timestamp `t` is fresh (no pre-existing directory is
named by it) and the new artifact's name is new to the run directory,
`mkdir(exist_ok=True)` + write extends that single run directory. -/
theorem add_to_history_dir_shape (hist0 : List (Nat × Dir)) (t : Nat) (arts : Dir)
    (f : FileName × FileData) (hk : ∀ e ∈ hist0, e.1 ≠ t) (hn : ∀ g ∈ arts, g.1 ≠ f.1) :
    add_to_history_dir (addArts hist0 t arts) t f = addArts hist0 t (arts ++ [f]) := by
  cases arts with
  | nil =>
    show add_to_history_dir hist0 t f = (t, [f]) :: hist0
    unfold add_to_history_dir
    have hany : (hist0.any fun e => e.1 == t) = false := by
      rw [List.any_eq_false]
      intro e he
      exact fun hc => hk e he (beq_iff_eq.mp hc)
    rw [hany]
    rfl
  | cons a as =>
    show add_to_history_dir ((t, a :: as) :: hist0) t f = (t, (a :: as) ++ [f]) :: hist0
    unfold add_to_history_dir
    have hany : (((t, a :: as) :: hist0).any fun e => e.1 == t) = true := by
      simp [List.any_cons]
    rw [hany]
    simp only [if_true]
    rw [List.map_cons]
    have h1 : ((t, a :: as).1 == t) = true := beq_iff_eq.mpr rfl
    rw [if_pos h1]
    have h2 : set_file (a :: as) f = (a :: as) ++ [f] := by
      unfold set_file
      have : ((a :: as).any fun g => g.1 == f.1) = false := by
        rw [List.any_eq_false]
        intro g hg
        exact fun hc => hn g hg (beq_iff_eq.mp hc)
      rw [this]
      rfl
    rw [h2]
    have h3 : hist0.map (fun e => if e.1 == t then (e.1, set_file e.2 f) else e) = hist0 := by
      rw [List.map_congr_left (g := id), List.map_id]
      intro e he
      rw [if_neg]
      · rfl
      · exact fun hc => hk e he (beq_iff_eq.mp hc)
    rw [h3]

/-- The two possible outcomes of one successful loop iteration of
`_compare_content_files` over a current file: no event, or one new
changelog entry (never "file removed") together with one copied artifact
in the run's snapshot directory. -/
theorem process_new_file_ok_cases {t : Nat} {fs fs' : FS} {f : FileName × FileData}
    (h : process_new_file t fs f = Except.ok fs') :
    fs' = fs ∨ ∃ e : Entry, e.time = t ∧ (e.msg = "file added" ∨ e.msg = "#TODO") ∧
      fs' = { fs with changelog := fs.changelog ++ [e],
                      historyDirs := add_to_history_dir fs.historyDirs t (f.1, ⟨f.2.content, t⟩) } := by
  unfold process_new_file at h
  split at h
  · exact absurd h (by simp)
  · right
    exact ⟨⟨f.1.stem, t, "file added"⟩, rfl, Or.inl rfl, (by injection h with h'; exact h'.symm)⟩
  · next old heq =>
    split at h
    · left
      injection h with h'
      exact h'.symm
    · right
      exact ⟨⟨old.1.stem, t, "#TODO"⟩, rfl, Or.inr rfl, (by injection h with h'; exact h'.symm)⟩

/-- Invariants of the whole added/modified loop: the content and cache
directories are untouched, and every appended changelog entry is an
"added" or "#TODO" entry stamped with the run timestamp. -/
theorem fold_new_basic (t : Nat) :
    ∀ (l : List (FileName × FileData)) (fs fs' : FS),
      l.foldlM (process_new_file t) fs = Except.ok fs' →
      fs'.contentDir = fs.contentDir ∧ fs'.cacheDir = fs.cacheDir ∧
      ∃ es, fs'.changelog = fs.changelog ++ es ∧
        ∀ e ∈ es, e.time = t ∧ (e.msg = "file added" ∨ e.msg = "#TODO")
  | [], fs, fs', h => by
    rw [List.foldlM_nil] at h
    have : fs = fs' := by injection h
    subst this
    exact ⟨rfl, rfl, [], by simp, by intro e he; cases he⟩
  | f :: rest, fs, fs', h => by
    rw [List.foldlM_cons] at h
    cases h1 : process_new_file t fs f with
    | error e => rw [h1, except_error_bind] at h; exact absurd h (by simp)
    | ok fs1 =>
      rw [h1, except_ok_bind] at h
      obtain ⟨hc, hk, es2, he2, hm2⟩ := fold_new_basic t rest fs1 fs' h
      rcases process_new_file_ok_cases h1 with heq | ⟨e, het, hem, heq⟩
      · subst heq
        exact ⟨hc, hk, es2, he2, hm2⟩
      · subst heq
        refine ⟨hc, hk, e :: es2, ?_, ?_⟩
        · rw [he2]
          simp
        · intro x hx
          rcases List.mem_cons.mp hx with hx | hx
          · subst hx; exact ⟨het, hem⟩
          · exact hm2 x hx

/-- The added/modified loop never touches history entries for stems that
do not occur among the processed files. -/
theorem fold_new_pres (t : Nat) (s : String) :
    ∀ (l : List (FileName × FileData)) (fs fs' : FS),
      (∀ f ∈ l, f.1.stem ≠ s) →
      l.foldlM (process_new_file t) fs = Except.ok fs' →
      find_latest_aux s fs'.historyDirs = find_latest_aux s fs.historyDirs
  | [], fs, fs', _, h => by
    rw [List.foldlM_nil] at h
    have : fs = fs' := by injection h
    subst this
    rfl
  | f :: rest, fs, fs', hl, h => by
    rw [List.foldlM_cons] at h
    cases h1 : process_new_file t fs f with
    | error e => rw [h1, except_error_bind] at h; exact absurd h (by simp)
    | ok fs1 =>
      rw [h1, except_ok_bind] at h
      have ih := fold_new_pres t s rest fs1 fs'
        (fun g hg => hl g (List.mem_cons_of_mem _ hg)) h
      rw [ih]
      rcases process_new_file_ok_cases h1 with heq | ⟨e, _, _, heq⟩
      · rw [heq]
      · rw [heq]
        exact find_latest_aux_add_ne fs.historyDirs t _ s (hl f (List.mem_cons_self _ _))

/-- Invariants of the removed-stems loop: content and cache untouched,
and exactly one "file removed" entry appended per removed stem. -/
theorem fold_removed_basic (t : Nat) :
    ∀ (rs : List String) (fs : FS),
      (rs.foldl (process_removed t) fs).contentDir = fs.contentDir ∧
      (rs.foldl (process_removed t) fs).cacheDir = fs.cacheDir ∧
      (rs.foldl (process_removed t) fs).changelog =
        fs.changelog ++ rs.map (fun s => ⟨s, t, "file removed"⟩)
  | [], fs => by simp [List.foldl_nil]
  | s :: rest, fs => by
    rw [List.foldl_cons]
    obtain ⟨hc, hk, hl⟩ := fold_removed_basic t rest (process_removed t fs s)
    refine ⟨hc, hk, ?_⟩
    rw [hl]
    show _ = fs.changelog ++ List.map _ (s :: rest)
    simp [process_removed]

/-- The removed-stems loop never touches history entries for other
stems. -/
theorem fold_removed_pres (t : Nat) (s : String) :
    ∀ (rs : List String) (fs : FS),
      (∀ x ∈ rs, x ≠ s) →
      find_latest_aux s ((rs.foldl (process_removed t) fs)).historyDirs =
        find_latest_aux s fs.historyDirs
  | [], fs, _ => rfl
  | x :: rest, fs, hl => by
    rw [List.foldl_cons]
    rw [fold_removed_pres t s rest (process_removed t fs x)
      (fun y hy => hl y (List.mem_cons_of_mem _ hy))]
    show find_latest_aux s (add_to_history_dir fs.historyDirs t ⟨⟨x, "deleted"⟩, ⟨"", t⟩⟩) = _
    exact find_latest_aux_add_ne fs.historyDirs t _ s (hl x (List.mem_cons_self _ _))

/-- Splitting a successful `_compare_content_files` into its two loops. -/
theorem compare_ok_decomp {t : Nat} {fs fs' : FS}
    (h : compare_content_files t fs = Except.ok fs') :
    ∃ fsA, fs.contentDir.foldlM (process_new_file t) fs = Except.ok fsA ∧
      fs' = (removed_stems fsA).foldl (process_removed t) fsA := by
  unfold compare_content_files at h
  split at h
  · exact absurd h (by simp)
  · next fsA heq =>
    exact ⟨fsA, heq, by injection h with h'; exact h'.symm⟩

/-- `removed_stems` only reads the content and cache directories. -/
theorem removed_stems_congr (fs1 fs2 : FS) (hc : fs1.contentDir = fs2.contentDir)
    (hk : fs1.cacheDir = fs2.cacheDir) : removed_stems fs1 = removed_stems fs2 := by
  unfold removed_stems
  rw [hc, hk]

/-- Searching for a stem that has no artifact in the run's snapshot
directory falls through to the pre-run history. -/
theorem find_latest_aux_addArts_skip (hist0 : List (Nat × Dir)) (t : Nat) (arts : Dir)
    (s : String) (hdisj : ∀ g ∈ arts, g.1.stem ≠ s) :
    find_latest_aux s (addArts hist0 t arts) = find_latest_aux s hist0 := by
  unfold addArts
  split
  · rfl
  · rw [find_latest_aux_cons, try_find_stem_none hdisj]

/-- The artifact just written for a stem is what the backward search now
returns for that stem: the run directory is newest and holds exactly one
file with this stem. -/
theorem find_latest_aux_addArts_self (hist0 : List (Nat × Dir)) (t : Nat) (arts : Dir)
    (f : FileName × FileData) (hdisj : ∀ g ∈ arts, g.1.stem ≠ f.1.stem)
    (hext : f.1.ext ≠ "deleted") :
    find_latest_aux f.1.stem (addArts hist0 t (arts ++ [f])) = Except.ok (some f) := by
  have hne : (arts ++ [f]).isEmpty = false := by simp
  unfold addArts
  rw [hne]
  simp only [Bool.false_eq_true, if_false]
  rw [find_latest_aux_cons]
  have htfs : try_find_stem (arts ++ [f]) f.1.stem = Except.ok (some f) := by
    unfold try_find_stem
    rw [List.filter_append]
    have h1 : arts.filter (fun g => g.1.stem == f.1.stem) = [] := by
      rw [List.filter_eq_nil_iff]
      intro g hg
      exact fun hc => hdisj g hg (beq_iff_eq.mp hc)
    have h2 : [f].filter (fun g => g.1.stem == f.1.stem) = [f] := by simp
    rw [h1, h2, List.nil_append]
  rw [htfs]
  show (if (f.1.ext == "deleted") = true then Except.ok none else Except.ok (some f)) =
    Except.ok (some f)
  rw [if_neg (fun hc => hext (beq_iff_eq.mp hc))]

/-- Characterisation of the added/modified loop of a reconciliation run
at a fresh timestamp `t`, starting from a history `hist0` older than `t`
with possibly some artifacts `arts` of this run already written: the
loop only grows the single run directory `content_<t>`, appends one
changelog entry per artifact it copies, and afterwards every processed
file's stem resolves (without error) to a non-tombstone history entry
carrying exactly the file's current bytes. -/
theorem fold_new_char (t : Nat) (hist0 : List (Nat × Dir))
    (hk : ∀ e ∈ hist0, e.1 < t)
    (hord : HistOrdered hist0)
    (hm : ∀ e ∈ hist0, ∀ g ∈ e.2, g.2.mtime < t) :
    ∀ (l : List (FileName × FileData)) (arts : Dir) (fs fs' : FS),
      fs.historyDirs = addArts hist0 t arts →
      (∀ g ∈ arts, ∀ f ∈ l, g.1.stem ≠ f.1.stem) →
      (l.map (fun f => f.1.stem)).Nodup →
      (∀ f ∈ l, f.1.ext ≠ "deleted") →
      (∀ f ∈ l, f.2.mtime = t) →
      l.foldlM (process_new_file t) fs = Except.ok fs' →
      ∃ arts2 : Dir, ∃ es : List Entry,
        fs'.historyDirs = addArts hist0 t (arts ++ arts2) ∧
        (∀ g ∈ arts2, g.1.ext ≠ "deleted" ∧ g.2.mtime = t ∧
          g.1.stem ∈ l.map (fun f => f.1.stem)) ∧
        fs'.changelog = fs.changelog ++ es ∧ es.length = arts2.length ∧
        (∀ f ∈ l, ∃ nm d, find_latest_aux f.1.stem fs'.historyDirs = Except.ok (some (nm, d)) ∧
          nm.ext ≠ "deleted" ∧ d.content = f.2.content ∧ d.mtime ≤ t)
  | [], arts, fs, fs', hh, _, _, _, _, hfold => by
    rw [List.foldlM_nil] at hfold
    have : fs = fs' := by injection hfold
    subst this
    exact ⟨[], [], (by rw [List.append_nil]; exact hh), (by intro g hg; cases hg),
      (by simp), rfl, (by intro f hf; cases hf)⟩
  | f :: rest, arts, fs, fs', hh, hdisj, hnd, hext, hmt, hfold => by
    rw [List.foldlM_cons] at hfold
    have hordfs : HistOrdered fs.historyDirs := by
      rw [hh]; exact hist_ordered_addArts arts hord hk
    have hkne : ∀ e ∈ hist0, e.1 ≠ t := fun e he => Nat.ne_of_lt (hk e he)
    have hdisjf : ∀ g ∈ arts, g.1.stem ≠ f.1.stem :=
      fun g hg => hdisj g hg f (List.mem_cons_self _ _)
    have hfstem : f.1.stem ∉ rest.map (fun f => f.1.stem) := (List.nodup_cons.mp hnd).1
    have hndrest : (rest.map (fun f => f.1.stem)).Nodup := (List.nodup_cons.mp hnd).2
    have hfl0 : find_latest fs.historyDirs f.1.stem =
        find_latest_aux f.1.stem (addArts hist0 t arts) := by
      rw [find_latest_eq_aux hordfs, hh]
    -- one step of the loop
    cases h1 : process_new_file t fs f with
    | error e => rw [h1, except_error_bind] at hfold; exact absurd hfold (by simp)
    | ok fs1 =>
      rw [h1, except_ok_bind] at hfold
      unfold process_new_file at h1
      rw [hfl0, find_latest_aux_addArts_skip hist0 t arts _ hdisjf] at h1
      -- in every surviving branch fs1 takes one of two shapes
      have hmain : ∃ arts1 : Dir,
          fs1.historyDirs = addArts hist0 t (arts ++ arts1) ∧
          (∃ es1 : List Entry, fs1.changelog = fs.changelog ++ es1 ∧
            es1.length = arts1.length) ∧
          (∀ g ∈ arts1, g.1.ext ≠ "deleted" ∧ g.2.mtime = t ∧ g.1.stem = f.1.stem) ∧
          (∃ nm d, find_latest_aux f.1.stem fs1.historyDirs = Except.ok (some (nm, d)) ∧
            nm.ext ≠ "deleted" ∧ d.content = f.2.content ∧ d.mtime ≤ t) := by
        split at h1
        · exact absurd h1 (by simp)
        · -- no prior state: ADDED, artifact (f.1, content at time t)
          have hfs1 : fs1 = { fs with
              changelog := fs.changelog ++ [⟨f.1.stem, t, "file added"⟩],
              historyDirs := add_to_history_dir fs.historyDirs t (f.1, ⟨f.2.content, t⟩) } := by
            injection h1 with h'; exact h'.symm
          refine ⟨[(f.1, ⟨f.2.content, t⟩)], ?_, ⟨[⟨f.1.stem, t, "file added"⟩], ?_, rfl⟩, ?_, ?_⟩
          · rw [hfs1]
            show add_to_history_dir fs.historyDirs t (f.1, ⟨f.2.content, t⟩) = _
            rw [hh]
            exact add_to_history_dir_shape hist0 t arts (f.1, ⟨f.2.content, t⟩) hkne
              (fun g hg hc => hdisjf g hg (congrArg FileName.stem hc))
          · rw [hfs1]
          · intro g hg
            rw [List.mem_singleton.mp hg]
            exact ⟨hext f (List.mem_cons_self _ _), rfl, rfl⟩
          · refine ⟨f.1, ⟨f.2.content, t⟩, ?_, hext f (List.mem_cons_self _ _), rfl, le_refl t⟩
            rw [hfs1]
            show find_latest_aux f.1.stem (add_to_history_dir fs.historyDirs t (f.1, ⟨f.2.content, t⟩)) = _
            rw [hh, add_to_history_dir_shape hist0 t arts (f.1, ⟨f.2.content, t⟩) hkne
              (fun g hg hc => hdisjf g hg (congrArg FileName.stem hc))]
            exact find_latest_aux_addArts_self hist0 t arts (f.1, ⟨f.2.content, t⟩) hdisjf
              (hext f (List.mem_cons_self _ _))
        · -- a prior state exists
          next old heqold =>
          obtain ⟨⟨e0, he0, hmem0⟩, hstem0, hext0⟩ := find_latest_aux_mem heqold
          have hmold : old.2.mtime < t := hm e0 he0 old hmem0
          split at h1
          · -- identical by filecmp.cmp: no event
            next hcmp =>
            have hfs1 : fs1 = fs := by injection h1 with h'; exact h'.symm
            subst hfs1
            refine ⟨[], by rw [List.append_nil]; exact hh, ⟨[], by simp, rfl⟩,
              (by intro g hg; cases hg), old.1, old.2, ?_, hext0, ?_, le_of_lt hmold⟩
            · rw [hh, find_latest_aux_addArts_skip hist0 t arts _ hdisjf]
              rw [← heqold]
            · have hmne : old.2.mtime ≠ f.2.mtime := by
                rw [hmt f (List.mem_cons_self _ _)]
                exact Nat.ne_of_lt hmold
              exact (filecmp_cmp_of_mtime_ne hmne).mp hcmp
          · -- differing by filecmp.cmp: MODIFIED, artifact copied
            have hfs1 : fs1 = { fs with
                changelog := fs.changelog ++ [⟨old.1.stem, t, "#TODO"⟩],
                historyDirs := add_to_history_dir fs.historyDirs t (f.1, ⟨f.2.content, t⟩) } := by
              injection h1 with h'; exact h'.symm
            refine ⟨[(f.1, ⟨f.2.content, t⟩)], ?_, ⟨[⟨old.1.stem, t, "#TODO"⟩], ?_, rfl⟩, ?_, ?_⟩
            · rw [hfs1]
              show add_to_history_dir fs.historyDirs t (f.1, ⟨f.2.content, t⟩) = _
              rw [hh]
              exact add_to_history_dir_shape hist0 t arts (f.1, ⟨f.2.content, t⟩) hkne
                (fun g hg hc => hdisjf g hg (congrArg FileName.stem hc))
            · rw [hfs1]
            · intro g hg
              rw [List.mem_singleton.mp hg]
              exact ⟨hext f (List.mem_cons_self _ _), rfl, rfl⟩
            · refine ⟨f.1, ⟨f.2.content, t⟩, ?_, hext f (List.mem_cons_self _ _), rfl, le_refl t⟩
              rw [hfs1]
              show find_latest_aux f.1.stem (add_to_history_dir fs.historyDirs t (f.1, ⟨f.2.content, t⟩)) = _
              rw [hh, add_to_history_dir_shape hist0 t arts (f.1, ⟨f.2.content, t⟩) hkne
                (fun g hg hc => hdisjf g hg (congrArg FileName.stem hc))]
              exact find_latest_aux_addArts_self hist0 t arts (f.1, ⟨f.2.content, t⟩) hdisjf
                (hext f (List.mem_cons_self _ _))
      obtain ⟨arts1, hh1, ⟨es1, hlog1, hlen1⟩, harts1, nmf, df, hfindf, hextf, hcontf, hmtf⟩ := hmain
      -- the rest of the loop, via the induction hypothesis
      have hdisj' : ∀ g ∈ arts ++ arts1, ∀ x ∈ rest, g.1.stem ≠ x.1.stem := by
        intro g hg x hx
        rcases List.mem_append.mp hg with hg | hg
        · exact hdisj g hg x (List.mem_cons_of_mem _ hx)
        · rw [(harts1 g hg).2.2]
          intro hc
          exact hfstem (hc ▸ List.mem_map_of_mem (fun f => f.1.stem) hx)
      obtain ⟨arts2, es2, hh2, harts2, hlog2, hlen2, hfind2⟩ :=
        fold_new_char t hist0 hk hord hm rest (arts ++ arts1) fs1 fs' hh1 hdisj' hndrest
          (fun x hx => hext x (List.mem_cons_of_mem _ hx))
          (fun x hx => hmt x (List.mem_cons_of_mem _ hx)) hfold
      refine ⟨arts1 ++ arts2, es1 ++ es2, ?_, ?_, ?_, ?_, ?_⟩
      · rw [hh2, List.append_assoc]
      · intro g hg
        rcases List.mem_append.mp hg with hg | hg
        · obtain ⟨h1', h2', h3'⟩ := harts1 g hg
          exact ⟨h1', h2', by rw [List.map_cons, h3']; exact List.mem_cons_self _ _⟩
        · obtain ⟨h1', h2', h3'⟩ := harts2 g hg
          exact ⟨h1', h2', by rw [List.map_cons]; exact List.mem_cons_of_mem _ h3'⟩
      · rw [hlog2, hlog1, List.append_assoc]
      · rw [List.length_append, List.length_append, hlen1, hlen2]
      · intro x hx
        rcases List.mem_cons.mp hx with hx | hx
        · subst hx
          refine ⟨nmf, df, ?_, hextf, hcontf, hmtf⟩
          rw [fold_new_pres t x.1.stem rest fs1 fs' ?_ hfold]
          · exact hfindf
          · intro g hg hc
            exact hfstem (hc ▸ List.mem_map_of_mem (fun f => f.1.stem) hg)
        · exact hfind2 x hx

/-- Characterisation of the removed-stems loop at a fresh timestamp:
it only appends tombstones to the single run directory. -/
theorem fold_removed_char (t : Nat) (hist0 : List (Nat × Dir))
    (hk : ∀ e ∈ hist0, e.1 ≠ t) :
    ∀ (rs : List String) (fs : FS) (arts : Dir),
      fs.historyDirs = addArts hist0 t arts →
      (∀ s ∈ rs, ∀ g ∈ arts, g.1.stem ≠ s) →
      rs.Nodup →
      ∃ tombs : Dir,
        (rs.foldl (process_removed t) fs).historyDirs = addArts hist0 t (arts ++ tombs) ∧
        tombs.length = rs.length
  | [], fs, arts, hh, _, _ => ⟨[], by rw [List.foldl_nil, List.append_nil]; exact hh, rfl⟩
  | s :: rest, fs, arts, hh, hdisj, hnd => by
    rw [List.foldl_cons]
    have htomb : (process_removed t fs s).historyDirs =
        addArts hist0 t (arts ++ [(⟨s, "deleted"⟩, ⟨"", t⟩)]) := by
      show add_to_history_dir fs.historyDirs t (⟨s, "deleted"⟩, ⟨"", t⟩) = _
      rw [hh]
      exact add_to_history_dir_shape hist0 t arts (⟨s, "deleted"⟩, ⟨"", t⟩) hk
        (fun g hg hc => hdisj s (List.mem_cons_self _ _) g hg (congrArg FileName.stem hc))
    have hdisj' : ∀ x ∈ rest, ∀ g ∈ arts ++ [(⟨s, "deleted"⟩, ⟨"", t⟩)], g.1.stem ≠ x := by
      intro x hx g hg
      rcases List.mem_append.mp hg with hg | hg
      · exact hdisj x (List.mem_cons_of_mem _ hx) g hg
      · rw [List.mem_singleton.mp hg]
        intro hc
        have hsx : s = x := hc
        exact (List.nodup_cons.mp hnd).1 (hsx.symm ▸ hx)
    obtain ⟨tombs, hh2, hlen⟩ := fold_removed_char t hist0 hk rest (process_removed t fs s)
      (arts ++ [(⟨s, "deleted"⟩, ⟨"", t⟩)]) htomb hdisj' (List.nodup_cons.mp hnd).2
    refine ⟨(⟨s, "deleted"⟩, ⟨"", t⟩) :: tombs, ?_, by simp [hlen]⟩
    rw [hh2, List.append_assoc]
    rfl

/-- With pairwise distinct stems, extraction into an empty content
directory produces exactly one fresh `.txt` file per document. -/
theorem write_extracted_eq_map (t : Nat) :
    ∀ (w : List (String × String)) (d : Dir),
      (w.map Prod.fst).Nodup →
      (∀ sc ∈ w, ∀ g ∈ d, g.1 ≠ (⟨sc.1, "txt"⟩ : FileName)) →
      write_extracted t d w = d ++ w.map (fun sc => (⟨sc.1, "txt"⟩, ⟨sc.2, t⟩))
  | [], d, _, _ => by simp [write_extracted]
  | sc :: rest, d, hnd, hdisj => by
    show write_extracted t d (sc :: rest) = _
    unfold write_extracted
    rw [List.foldl_cons]
    have hset : set_file d (⟨sc.1, "txt"⟩, ⟨sc.2, t⟩) = d ++ [(⟨sc.1, "txt"⟩, ⟨sc.2, t⟩)] := by
      unfold set_file
      have : (d.any fun g => g.1 == (⟨sc.1, "txt"⟩ : FileName)) = false := by
        rw [List.any_eq_false]
        intro g hg hc
        exact hdisj sc (List.mem_cons_self _ _) g hg (beq_iff_eq.mp hc)
      rw [this]
      rfl
    rw [hset]
    have hdisj' : ∀ x ∈ rest, ∀ g ∈ d ++ [(⟨sc.1, "txt"⟩, ⟨sc.2, t⟩)],
        g.1 ≠ (⟨x.1, "txt"⟩ : FileName) := by
      intro x hx g hg
      rcases List.mem_append.mp hg with hg | hg
      · exact hdisj x (List.mem_cons_of_mem _ hx) g hg
      · rw [List.mem_singleton.mp hg]
        intro hc
        have : sc.1 = x.1 := congrArg FileName.stem hc
        exact (List.nodup_cons.mp hnd).1 (this ▸ List.mem_map_of_mem Prod.fst hx)
    have := write_extracted_eq_map t rest (d ++ [(⟨sc.1, "txt"⟩, ⟨sc.2, t⟩)])
      (List.nodup_cons.mp hnd).2 hdisj'
    unfold write_extracted at this
    rw [this, List.append_assoc]
    rfl

/-- A list element picked by `List.contains` and vice versa. -/
theorem contains_iff_mem {l : List String} {a : String} : l.contains a = true ↔ a ∈ l :=
  List.elem_iff

/-- What one fully successful run (`run_process` with every extraction
succeeding) does, starting from a well-formed state at a fresh
timestamp `t`: the content directory holds exactly the extracted texts
stamped `t`, the cache still holds the whole pre-run content, the
history grew by at most the single run directory `content_<t>` on top of
the pruned pre-run history, and afterwards every document's stem
resolves without error to a non-tombstone entry holding exactly the
document's extracted bytes with an mtime at most `t`. -/
theorem run_success_char (t : Nat) (ex : List (String × String)) (fs fs' : FS)
    (hstems : (ex.map Prod.fst).Nodup)
    (hk : ∀ e ∈ fs.historyDirs, e.1 < t)
    (hord : HistOrdered fs.historyDirs)
    (hm : ∀ e ∈ fs.historyDirs, ∀ g ∈ e.2, g.2.mtime < t)
    (hrun : run_process t ⟨ex, true⟩ fs = Except.ok fs') :
    fs'.contentDir = ex.map (fun sc => (⟨sc.1, "txt"⟩, ⟨sc.2, t⟩)) ∧
    fs'.cacheDir = some fs.contentDir ∧
    (∃ allArts : Dir,
      fs'.historyDirs = addArts (fs.historyDirs.filter (fun e => !e.2.isEmpty)) t allArts) ∧
    (∀ sc ∈ ex, ∃ nm d, find_latest_aux sc.1 fs'.historyDirs = Except.ok (some (nm, d)) ∧
      nm.ext ≠ "deleted" ∧ d.content = sc.2 ∧ d.mtime ≤ t) := by
  have hwrite : write_extracted t [] ex = ex.map (fun sc => (⟨sc.1, "txt"⟩, ⟨sc.2, t⟩)) := by
    rw [write_extracted_eq_map t ex [] hstems (by intro sc hsc g hg; cases hg)]
    rfl
  -- the state handed to the reconciler on the success path
  replace hrun : compare_content_files t
      ⟨write_extracted t [] ex, some fs.contentDir,
        fs.historyDirs.filter (fun e => !e.2.isEmpty), fs.changelog⟩ = Except.ok fs' := hrun
  set hist0 : List (Nat × Dir) := fs.historyDirs.filter (fun e => !e.2.isEmpty) with hhist0
  set fs3 : FS := ⟨write_extracted t [] ex, some fs.contentDir, hist0, fs.changelog⟩ with hfs3
  have hk0 : ∀ e ∈ hist0, e.1 < t := fun e he => hk e (List.mem_of_mem_filter he)
  have hord0 : HistOrdered hist0 := hist_ordered_filter _ hord
  have hm0 : ∀ e ∈ hist0, ∀ g ∈ e.2, g.2.mtime < t :=
    fun e he => hm e (List.mem_of_mem_filter he)
  obtain ⟨fsA, hfold, hfs'⟩ := compare_ok_decomp hrun
  have hcontent3 : fs3.contentDir = ex.map (fun sc => (⟨sc.1, "txt"⟩, ⟨sc.2, t⟩)) := hwrite
  have hstems3 : (fs3.contentDir.map (fun f => f.1.stem)).Nodup := by
    rw [hcontent3, List.map_map]
    exact hstems
  obtain ⟨arts2, es, hhA, hartsA, hlogA, hlenA, hfindA⟩ :=
    fold_new_char t hist0 hk0 hord0 hm0 fs3.contentDir [] fs3 fsA rfl
      (by intro g hg; cases hg) hstems3
      (by
        intro f hf
        rw [hcontent3] at hf
        obtain ⟨sc, _, hfe⟩ := List.mem_map.mp hf
        rw [← hfe]
        show ("txt" : String) ≠ "deleted"
        decide)
      (by
        intro f hf
        rw [hcontent3] at hf
        obtain ⟨sc, _, hfe⟩ := List.mem_map.mp hf
        rw [← hfe])
      hfold
  rw [List.nil_append] at hhA
  obtain ⟨hcA, hkA, _⟩ := fold_new_basic t fs3.contentDir fs3 fsA hfold
  -- the removed-stems loop only adds tombstones for stems outside the content
  have hrs : ∀ s ∈ removed_stems fsA, ¬(dir_stems fsA.contentDir).contains s = true := by
    intro s hs
    have := List.of_mem_filter hs
    simp only [Bool.not_eq_true'] at this
    rw [this]
    simp
  have hrs_content : ∀ s ∈ removed_stems fsA, ∀ sc ∈ ex, s ≠ sc.1 := by
    intro s hs sc hsc hcontra
    apply hrs s hs
    rw [contains_iff_mem]
    unfold dir_stems
    rw [hcA, hcontent3, List.map_map]
    subst hcontra
    exact List.mem_map_of_mem (fun sc => sc.1) hsc
  have hndrs : (removed_stems fsA).Nodup :=
    List.Nodup.filter _ (List.nodup_dedup _)
  obtain ⟨tombs, hhF, _⟩ := fold_removed_char t hist0
    (fun e he => Nat.ne_of_lt (hk0 e he)) (removed_stems fsA) fsA arts2 hhA
    (by
      intro s hs g hg hcontra
      obtain ⟨_, _, hstem_in⟩ := hartsA g hg
      rw [hcontent3, List.map_map] at hstem_in
      obtain ⟨sc, hsc, hsceq⟩ := List.mem_map.mp hstem_in
      exact hrs_content s hs sc hsc (by rw [← hcontra, ← hsceq]; rfl))
    hndrs
  obtain ⟨hcF, hkF, _⟩ := fold_removed_basic t (removed_stems fsA) fsA
  refine ⟨?_, ?_, ⟨arts2 ++ tombs, ?_⟩, ?_⟩
  · rw [hfs', hcF, hcA, hcontent3]
  · rw [hfs', hkF, hkA]
  · rw [hfs', hhF]
  · intro sc hsc
    have hf_in : (⟨sc.1, "txt"⟩, (⟨sc.2, t⟩ : FileData)) ∈ fs3.contentDir := by
      rw [hcontent3]
      exact List.mem_map_of_mem _ hsc
    obtain ⟨nm, d, hfind, hext, hcont, hmt⟩ := hfindA _ hf_in
    refine ⟨nm, d, ?_, hext, hcont, hmt⟩
    rw [hfs', fold_removed_pres t sc.1 (removed_stems fsA) fsA
      (fun x hx => hrs_content x hx sc hsc)]
    exact hfind

/-- A fold whose every step leaves the state unchanged is the identity. -/
theorem foldlM_fixed {α β : Type} {ε : Type} (f : β → α → Except ε β) :
    ∀ (l : List α) (b : β), (∀ a ∈ l, f b a = Except.ok b) → l.foldlM f b = Except.ok b
  | [], b, _ => rfl
  | a :: rest, b, h => by
    rw [List.foldlM_cons, h a (List.mem_cons_self _ _), except_ok_bind]
    exact foldlM_fixed f rest b (fun x hx => h x (List.mem_cons_of_mem _ hx))

/-- A current file whose prior state is found and passes `filecmp.cmp`
produces no event and leaves the state untouched. -/
theorem process_new_file_unchanged {t : Nat} {fs : FS} {f : FileName × FileData}
    {nm : FileName} {d : FileData}
    (hfl : find_latest fs.historyDirs f.1.stem = Except.ok (some (nm, d)))
    (hcmp : filecmp_cmp d f.2 = true) :
    process_new_file t fs f = Except.ok fs := by
  unfold process_new_file
  rw [hfl]
  show (if (filecmp_cmp d f.2) = true then Except.ok fs
    else Except.ok { fs with
      changelog := fs.changelog ++ [⟨nm.stem, t, "#TODO"⟩],
      historyDirs := add_to_history_dir fs.historyDirs t (f.1, ⟨f.2.content, t⟩) }) =
    Except.ok fs
  rw [if_pos hcmp]

/-- `_compare_content_files` once the added/modified loop's result is
known. -/
theorem compare_eq_of_fold {t : Nat} {fs X : FS}
    (hfold : fs.contentDir.foldlM (process_new_file t) fs = Except.ok X) :
    compare_content_files t fs = Except.ok ((removed_stems X).foldl (process_removed t) X) := by
  unfold compare_content_files
  rw [hfold]

/-- A current file with no (live) prior state yields a "file added"
changelog entry and a copy in the run's snapshot directory. -/
theorem process_new_file_added {t : Nat} {fs : FS} {f : FileName × FileData}
    (hfl : find_latest fs.historyDirs f.1.stem = Except.ok none) :
    process_new_file t fs f = Except.ok { fs with
      changelog := fs.changelog ++ [⟨f.1.stem, t, "file added"⟩],
      historyDirs := add_to_history_dir fs.historyDirs t (f.1, ⟨f.2.content, t⟩) } := by
  unfold process_new_file
  rw [hfl]

/-- A current file whose prior state fails `filecmp.cmp` yields a
"#TODO" changelog entry and a copy in the run's snapshot directory. -/
theorem process_new_file_modified {t : Nat} {fs : FS} {f : FileName × FileData}
    {nm : FileName} {d : FileData}
    (hfl : find_latest fs.historyDirs f.1.stem = Except.ok (some (nm, d)))
    (hcmp : filecmp_cmp d f.2 = false) :
    process_new_file t fs f = Except.ok { fs with
      changelog := fs.changelog ++ [⟨nm.stem, t, "#TODO"⟩],
      historyDirs := add_to_history_dir fs.historyDirs t (f.1, ⟨f.2.content, t⟩) } := by
  unfold process_new_file
  rw [hfl]
  show (if (filecmp_cmp d f.2) = true then Except.ok fs
    else Except.ok { fs with
      changelog := fs.changelog ++ [⟨nm.stem, t, "#TODO"⟩],
      historyDirs := add_to_history_dir fs.historyDirs t (f.1, ⟨f.2.content, t⟩) }) = _
  rw [if_neg (fun hc => absurd (hcmp ▸ hc) (by decide))]

/-- When the raw first match of the backward search is a tombstone,
`_find_latest` reports "not found". -/
theorem find_latest_aux_none_of_tomb {s : String} :
    ∀ (l : List (Nat × Dir)) (m : FileName × FileData),
      first_match_aux s l = Except.ok (some m) → m.1.ext = "deleted" →
      find_latest_aux s l = Except.ok none
  | [], m, h, _ => by simp [first_match_aux] at h
  | (k, d) :: rest, m, h, htomb => by
    rw [find_latest_aux_cons]
    unfold first_match_aux at h
    cases htfs : try_find_stem d s with
    | error e => rw [htfs] at h; exact absurd h (by simp)
    | ok o =>
      rw [htfs] at h
      cases o with
      | none => exact find_latest_aux_none_of_tomb rest m h htomb
      | some m0 =>
        have hm0 : m0 = m := by injection h with h'; injection h'
        subst hm0
        show (if (m0.1.ext == "deleted") = true then Except.ok none else Except.ok (some m0)) =
          Except.ok none
        rw [if_pos (beq_iff_eq.mpr htomb)]

/-- C5: running the reconciliation a second time immediately after a
completed run, with no change to any source document (same extracted
texts), appends zero new changelog entries and creates zero new snapshot
directories on the second run: the second run's changelog equals the
first run's, and its history directories are a sublist of the first
run's (pruning may drop empty directories, nothing is added).  The runs
happen at fresh, increasing timestamps over a well-formed starting
history with pairwise distinct document stems. -/
theorem c5_second_run_idempotent (fs0 fs1 fs2 : FS) (ex : List (String × String))
    (t1 t2 : Nat)
    (hstems : (ex.map Prod.fst).Nodup)
    (hk : ∀ e ∈ fs0.historyDirs, e.1 < t1)
    (hord : HistOrdered fs0.historyDirs)
    (hm : ∀ e ∈ fs0.historyDirs, ∀ g ∈ e.2, g.2.mtime < t1)
    (ht : t1 < t2)
    (h1 : run_process t1 ⟨ex, true⟩ fs0 = Except.ok fs1)
    (h2 : run_process t2 ⟨ex, true⟩ fs1 = Except.ok fs2) :
    fs2.changelog = fs1.changelog ∧ fs2.historyDirs.Sublist fs1.historyDirs := by
  obtain ⟨hc1, _, ⟨allArts, hh1⟩, hfind1⟩ :=
    run_success_char t1 ex fs0 fs1 hstems hk hord hm h1
  have hord1 : HistOrdered fs1.historyDirs := by
    rw [hh1]
    exact hist_ordered_addArts allArts (hist_ordered_filter _ hord)
      (fun e he => hk e (List.mem_of_mem_filter he))
  have hwrite2 : write_extracted t2 [] ex =
      ex.map (fun sc => (⟨sc.1, "txt"⟩, ⟨sc.2, t2⟩)) := by
    rw [write_extracted_eq_map t2 ex [] hstems (by intro sc hsc g hg; cases hg)]
    rfl
  -- the state handed to the second run's reconciler
  replace h2 : compare_content_files t2
      ⟨write_extracted t2 [] ex, some fs1.contentDir,
        fs1.historyDirs.filter (fun e => !e.2.isEmpty), fs1.changelog⟩ = Except.ok fs2 := h2
  set g3 : FS := ⟨write_extracted t2 [] ex, some fs1.contentDir,
      fs1.historyDirs.filter (fun e => !e.2.isEmpty), fs1.changelog⟩ with hg3
  have hordg3 : HistOrdered g3.historyDirs := hist_ordered_filter _ hord1
  have hcontentg3 : g3.contentDir = ex.map (fun sc => (⟨sc.1, "txt"⟩, ⟨sc.2, t2⟩)) := hwrite2
  -- every step of the second added/modified loop is a no-op
  have hstep : ∀ f ∈ g3.contentDir, process_new_file t2 g3 f = Except.ok g3 := by
    intro f hf
    rw [hcontentg3] at hf
    obtain ⟨sc, hsc, hfe⟩ := List.mem_map.mp hf
    subst hfe
    obtain ⟨nm, d, hfind, _, hcont, hmt⟩ := hfind1 sc hsc
    have hfl : find_latest g3.historyDirs sc.1 = Except.ok (some (nm, d)) := by
      rw [find_latest_eq_aux hordg3]
      show find_latest_aux sc.1 (fs1.historyDirs.filter fun e => !e.2.isEmpty) = _
      rw [find_latest_aux_filter_empty]
      exact hfind
    have hcmp : filecmp_cmp d ⟨sc.2, t2⟩ = true := by
      apply (filecmp_cmp_of_mtime_ne ?_).mpr hcont
      exact Nat.ne_of_lt (lt_of_le_of_lt hmt ht)
    exact process_new_file_unchanged hfl hcmp
  have hfoldid : g3.contentDir.foldlM (process_new_file t2) g3 = Except.ok g3 :=
    foldlM_fixed _ _ _ hstep
  -- the second run removes nothing either
  have hremoved : removed_stems g3 = [] := by
    unfold removed_stems
    rw [List.filter_eq_nil_iff]
    intro s hs
    rw [List.mem_dedup] at hs
    have hcachestems : dir_stems (g3.cacheDir.getD []) = ex.map Prod.fst := by
      show dir_stems fs1.contentDir = _
      rw [hc1]
      unfold dir_stems
      rw [List.map_map]
      rfl
    have hcontstems : dir_stems g3.contentDir = ex.map Prod.fst := by
      rw [hcontentg3]
      unfold dir_stems
      rw [List.map_map]
      rfl
    rw [hcachestems] at hs
    intro hcontra
    rw [Bool.not_eq_true'] at hcontra
    rw [hcontstems] at hcontra
    rw [contains_iff_mem.mpr hs] at hcontra
    exact absurd hcontra (by decide)
  obtain ⟨fsA, hfoldA, hfs2⟩ := compare_ok_decomp h2
  have hfsAg3 : fsA = g3 := by
    rw [hfoldid] at hfoldA
    injection hfoldA with h
    exact h.symm
  subst hfsAg3
  rw [hremoved, List.foldl_nil] at hfs2
  subst hfs2
  exact ⟨rfl, List.filter_sublist fs1.historyDirs⟩

/-- C5 witness: a concrete pair of runs — the first run adds document
"a" (one changelog entry, one snapshot directory), the second run with
the same extracted text appends nothing and creates no directory. -/
theorem c5_witness :
    run_process 1 ⟨[("a", "hello")], true⟩ (⟨[], none, [], []⟩ : FS) =
      Except.ok ⟨[(⟨"a", "txt"⟩, ⟨"hello", 1⟩)], some [],
        [(1, [(⟨"a", "txt"⟩, ⟨"hello", 1⟩)])], [⟨"a", 1, "file added"⟩]⟩ ∧
    run_process 2 ⟨[("a", "hello")], true⟩
      (⟨[(⟨"a", "txt"⟩, ⟨"hello", 1⟩)], some [],
        [(1, [(⟨"a", "txt"⟩, ⟨"hello", 1⟩)])], [⟨"a", 1, "file added"⟩]⟩ : FS) =
      Except.ok ⟨[(⟨"a", "txt"⟩, ⟨"hello", 2⟩)], some [(⟨"a", "txt"⟩, ⟨"hello", 1⟩)],
        [(1, [(⟨"a", "txt"⟩, ⟨"hello", 1⟩)])], [⟨"a", 1, "file added"⟩]⟩ ∧
    (FS.mk [(⟨"a", "txt"⟩, ⟨"hello", 2⟩)] (some [(⟨"a", "txt"⟩, ⟨"hello", 1⟩)])
        [(1, [(⟨"a", "txt"⟩, ⟨"hello", 1⟩)])] [⟨"a", 1, "file added"⟩]).changelog =
      (FS.mk [(⟨"a", "txt"⟩, ⟨"hello", 1⟩)] (some [])
        [(1, [(⟨"a", "txt"⟩, ⟨"hello", 1⟩)])] [⟨"a", 1, "file added"⟩]).changelog ∧
    (FS.mk [(⟨"a", "txt"⟩, ⟨"hello", 2⟩)] (some [(⟨"a", "txt"⟩, ⟨"hello", 1⟩)])
        [(1, [(⟨"a", "txt"⟩, ⟨"hello", 1⟩)])] [⟨"a", 1, "file added"⟩]).historyDirs.Sublist
      (FS.mk [(⟨"a", "txt"⟩, ⟨"hello", 1⟩)] (some [])
        [(1, [(⟨"a", "txt"⟩, ⟨"hello", 1⟩)])] [⟨"a", 1, "file added"⟩]).historyDirs :=
  ⟨rfl, rfl,
    (c5_second_run_idempotent ⟨[], none, [], []⟩
      ⟨[(⟨"a", "txt"⟩, ⟨"hello", 1⟩)], some [],
        [(1, [(⟨"a", "txt"⟩, ⟨"hello", 1⟩)])], [⟨"a", 1, "file added"⟩]⟩
      ⟨[(⟨"a", "txt"⟩, ⟨"hello", 2⟩)], some [(⟨"a", "txt"⟩, ⟨"hello", 1⟩)],
        [(1, [(⟨"a", "txt"⟩, ⟨"hello", 1⟩)])], [⟨"a", 1, "file added"⟩]⟩
      [("a", "hello")] 1 2 (by decide) (by decide) (by decide)
      (by decide) (by decide) rfl rfl).1,
    (c5_second_run_idempotent ⟨[], none, [], []⟩
      ⟨[(⟨"a", "txt"⟩, ⟨"hello", 1⟩)], some [],
        [(1, [(⟨"a", "txt"⟩, ⟨"hello", 1⟩)])], [⟨"a", 1, "file added"⟩]⟩
      ⟨[(⟨"a", "txt"⟩, ⟨"hello", 2⟩)], some [(⟨"a", "txt"⟩, ⟨"hello", 1⟩)],
        [(1, [(⟨"a", "txt"⟩, ⟨"hello", 1⟩)])], [⟨"a", 1, "file added"⟩]⟩
      [("a", "hello")] 1 2 (by decide) (by decide) (by decide)
      (by decide) (by decide) rfl rfl).2⟩

/-- C1 counterexample: extraction fails on a run whose restored content
("v2x") differs from the latest history state ("v1"); the run still
appends one changelog entry and creates a new snapshot directory
(history grows from one to two directories), contradicting "terminates
without appending any changelog entry and without creating any history
snapshot directory". -/
theorem c1_counterexample :
    (run_process 5 ⟨[], false⟩
      (⟨[(⟨"a", "txt"⟩, ⟨"v2x", 0⟩)], none,
        [(0, [(⟨"a", "txt"⟩, ⟨"v1", 0⟩)])], []⟩ : FS)).map
      (fun s => (s.changelog, s.historyDirs.length)) =
    Except.ok ([⟨"a", 5, "#TODO"⟩], 2) := rfl

/-- C1 (amended): on any run whose extraction fails, the Content Store
is restored byte-for-byte from the Cache and the Cache is deleted, but
the run does not terminate there: it still reconciles the restored
content against history, which can append changelog entries — though
never "file removed" entries, since the cache is already gone. -/
theorem c1_failed_run_rolls_back_then_reconciles (t : Nat) (ex : Extraction) (fs fs' : FS)
    (hfail : ex.ok = false)
    (hok : run_process t ex fs = Except.ok fs') :
    fs'.contentDir = fs.contentDir ∧ fs'.cacheDir = none ∧
    ∃ es, fs'.changelog = fs.changelog ++ es ∧ ∀ e ∈ es, e.msg ≠ "file removed" := by
  obtain ⟨w, okf⟩ := ex
  cases okf with
  | true => exact Bool.noConfusion hfail
  | false =>
    replace hok : compare_content_files t
        ⟨fs.contentDir, none, fs.historyDirs.filter (fun e => !e.2.isEmpty), fs.changelog⟩ =
        Except.ok fs' := hok
    set fs3 : FS := ⟨fs.contentDir, none,
      fs.historyDirs.filter (fun e => !e.2.isEmpty), fs.changelog⟩ with hfs3
    obtain ⟨fsA, hfold, hfs'⟩ := compare_ok_decomp hok
    obtain ⟨hc, hk, es1, hes1, hm1⟩ := fold_new_basic t fs3.contentDir fs3 fsA hfold
    have hrem : removed_stems fsA = [] := by
      rw [removed_stems_congr fsA fs3 hc hk]
      rfl
    rw [hrem, List.foldl_nil] at hfs'
    subst hfs'
    refine ⟨hc, hk, es1, hes1, ?_⟩
    intro e he
    rcases (hm1 e he).2 with h | h <;> rw [h] <;> decide

/-- C1 witness: the amended statement at the counterexample input. -/
theorem c1_witness :
    (Extraction.mk [] false).ok = false ∧
    run_process 5 ⟨[], false⟩
      (⟨[(⟨"a", "txt"⟩, ⟨"v2x", 0⟩)], none,
        [(0, [(⟨"a", "txt"⟩, ⟨"v1", 0⟩)])], []⟩ : FS) =
      Except.ok ⟨[(⟨"a", "txt"⟩, ⟨"v2x", 0⟩)], none,
        [(5, [(⟨"a", "txt"⟩, ⟨"v2x", 5⟩)]), (0, [(⟨"a", "txt"⟩, ⟨"v1", 0⟩)])],
        [⟨"a", 5, "#TODO"⟩]⟩ ∧
    ((FS.mk [(⟨"a", "txt"⟩, ⟨"v2x", 0⟩)] none
        [(5, [(⟨"a", "txt"⟩, ⟨"v2x", 5⟩)]), (0, [(⟨"a", "txt"⟩, ⟨"v1", 0⟩)])]
        [⟨"a", 5, "#TODO"⟩]).contentDir =
      (FS.mk [(⟨"a", "txt"⟩, ⟨"v2x", 0⟩)] none
        [(0, [(⟨"a", "txt"⟩, ⟨"v1", 0⟩)])] []).contentDir ∧
      (FS.mk [(⟨"a", "txt"⟩, ⟨"v2x", 0⟩)] none
        [(5, [(⟨"a", "txt"⟩, ⟨"v2x", 5⟩)]), (0, [(⟨"a", "txt"⟩, ⟨"v1", 0⟩)])]
        [⟨"a", 5, "#TODO"⟩]).cacheDir = none ∧
      ∃ es, (FS.mk [(⟨"a", "txt"⟩, ⟨"v2x", 0⟩)] none
        [(5, [(⟨"a", "txt"⟩, ⟨"v2x", 5⟩)]), (0, [(⟨"a", "txt"⟩, ⟨"v1", 0⟩)])]
        [⟨"a", 5, "#TODO"⟩]).changelog =
        (FS.mk [(⟨"a", "txt"⟩, ⟨"v2x", 0⟩)] none
          [(0, [(⟨"a", "txt"⟩, ⟨"v1", 0⟩)])] []).changelog ++ es ∧
        ∀ e ∈ es, e.msg ≠ "file removed") :=
  ⟨rfl, rfl, c1_failed_run_rolls_back_then_reconciles 5 ⟨[], false⟩ _ _ rfl rfl⟩

/-- C2 counterexample: after a fully successful run the cache directory
still exists (holding the pre-run content), contradicting "the Cache
directory is deleted before the run ends". -/
theorem c2_counterexample :
    (run_process 1 ⟨[("a", "new")], true⟩
      (⟨[(⟨"a", "txt"⟩, ⟨"old", 0⟩)], none, [], []⟩ : FS)).map (fun s => s.cacheDir) =
    Except.ok (some [(⟨"a", "txt"⟩, ⟨"old", 0⟩)]) := rfl

/-- C2 (amended): a fully successful run never deletes the Cache; at run
end the cache directory still exists and holds exactly the pre-run
Content Store.  (It is deleted only by the next run's caching step or by
a failure-path restore.) -/
theorem c2_cache_persists_after_success (t : Nat) (ex : Extraction) (fs fs' : FS)
    (hsucc : ex.ok = true)
    (hrun : run_process t ex fs = Except.ok fs') :
    fs'.cacheDir = some fs.contentDir := by
  obtain ⟨w, okf⟩ := ex
  cases okf with
  | false => exact Bool.noConfusion hsucc
  | true =>
    replace hrun : compare_content_files t
        ⟨write_extracted t [] w, some fs.contentDir,
          fs.historyDirs.filter (fun e => !e.2.isEmpty), fs.changelog⟩ = Except.ok fs' := hrun
    obtain ⟨fsA, hfold, hfs'⟩ := compare_ok_decomp hrun
    obtain ⟨_, hkA, _⟩ := fold_new_basic t _ _ fsA hfold
    obtain ⟨_, hkF, _⟩ := fold_removed_basic t (removed_stems fsA) fsA
    rw [hfs', hkF, hkA]

/-- C2 witness: the amended statement at the counterexample input. -/
theorem c2_witness :
    (Extraction.mk [("a", "new")] true).ok = true ∧
    run_process 1 ⟨[("a", "new")], true⟩
      (⟨[(⟨"a", "txt"⟩, ⟨"old", 0⟩)], none, [], []⟩ : FS) =
      Except.ok ⟨[(⟨"a", "txt"⟩, ⟨"new", 1⟩)], some [(⟨"a", "txt"⟩, ⟨"old", 0⟩)],
        [(1, [(⟨"a", "txt"⟩, ⟨"new", 1⟩)])], [⟨"a", 1, "file added"⟩]⟩ ∧
    (FS.mk [(⟨"a", "txt"⟩, ⟨"new", 1⟩)] (some [(⟨"a", "txt"⟩, ⟨"old", 0⟩)])
        [(1, [(⟨"a", "txt"⟩, ⟨"new", 1⟩)])] [⟨"a", 1, "file added"⟩]).cacheDir =
      some (FS.mk [(⟨"a", "txt"⟩, ⟨"old", 0⟩)] none [] []).contentDir :=
  ⟨rfl, rfl, c2_cache_persists_after_success 1 ⟨[("a", "new")], true⟩ _ _ rfl rfl⟩

/-- C3 counterexample: prior content "ab" and current content "xy"
differ byte-for-byte but share size and mtime, so `filecmp.cmp`'s
shallow signature check reports them equal and no MODIFIED event is
emitted — contradicting "MODIFIED is emitted iff the contents differ by
exact byte comparison". -/
theorem c3_counterexample :
    ("ab" : String) ≠ "xy" ∧
    (compare_content_files 3
      (⟨[(⟨"a", "txt"⟩, ⟨"xy", 7⟩)], some [],
        [(0, [(⟨"a", "txt"⟩, ⟨"ab", 7⟩)])], []⟩ : FS)).map (fun s => s.changelog) =
    Except.ok [] := ⟨by decide, rfl⟩

/-- C3 (amended): for a current stem with a prior state, a MODIFIED
event is emitted iff `filecmp.cmp` (shallow) reports a difference: iff
the two files differ both in their `(size, mtime)` stat signature and in
their bytes.  When the signatures differ, the comparison is an exact
byte comparison with no normalization; when the signatures coincide the
bytes are never read. -/
theorem c3_modified_iff_shallow_cmp_differs (old new : FileData) (t0 t : Nat)
    (lg : List Entry) :
    (compare_content_files t
      (⟨[(⟨"a", "txt"⟩, new)], some [], [(t0, [(⟨"a", "txt"⟩, old)])], lg⟩ : FS)).map
      (fun s => s.changelog) =
    Except.ok (lg ++
      (if file_sig old = file_sig new ∨ old.content = new.content then []
       else [⟨"a", t, "#TODO"⟩])) := by
  set fs : FS := ⟨[(⟨"a", "txt"⟩, new)], some [], [(t0, [(⟨"a", "txt"⟩, old)])], lg⟩ with hfs
  have hfl : find_latest fs.historyDirs "a" = Except.ok (some (⟨"a", "txt"⟩, old)) := rfl
  by_cases hcmp : filecmp_cmp old new = true
  · have hstep : process_new_file t fs (⟨"a", "txt"⟩, new) = Except.ok fs :=
      process_new_file_unchanged hfl hcmp
    have hfold : fs.contentDir.foldlM (process_new_file t) fs = Except.ok fs := by
      show ([(⟨"a", "txt"⟩, new)] : Dir).foldlM (process_new_file t) fs = _
      rw [List.foldlM_cons, hstep, except_ok_bind, List.foldlM_nil]
      rfl
    rw [compare_eq_of_fold hfold]
    rw [if_pos ((filecmp_cmp_true_iff old new).mp hcmp), List.append_nil]
    rfl
  · have hcmpf : filecmp_cmp old new = false := by
      cases hc : filecmp_cmp old new
      · rfl
      · exact absurd hc hcmp
    have hstep : process_new_file t fs (⟨"a", "txt"⟩, new) = Except.ok { fs with
        changelog := fs.changelog ++ [⟨"a", t, "#TODO"⟩],
        historyDirs := add_to_history_dir fs.historyDirs t
          ((⟨"a", "txt"⟩ : FileName), ⟨new.content, t⟩) } :=
      process_new_file_modified hfl hcmpf
    have hfold : fs.contentDir.foldlM (process_new_file t) fs =
        Except.ok { fs with
          changelog := fs.changelog ++ [⟨"a", t, "#TODO"⟩],
          historyDirs := add_to_history_dir fs.historyDirs t
            ((⟨"a", "txt"⟩ : FileName), ⟨new.content, t⟩) } := by
      show ([(⟨"a", "txt"⟩, new)] : Dir).foldlM (process_new_file t) fs = _
      rw [List.foldlM_cons, hstep, except_ok_bind, List.foldlM_nil]
      rfl
    rw [compare_eq_of_fold hfold]
    have hcond : ¬(file_sig old = file_sig new ∨ old.content = new.content) := by
      intro h
      rw [(filecmp_cmp_true_iff old new).mpr h] at hcmpf
      exact absurd hcmpf (by decide)
    rw [if_neg hcond]
    rfl

/-- C4 counterexample: stem "b" is live in history but absent from both
cache and content — the claim demands a REMOVED event for it, yet none
is emitted; stem "c" is in the cache but nowhere in history — the claim
forbids a REMOVED event for it, yet one is emitted.  The code derives
REMOVED from the cache, not from the history union. -/
theorem c4_counterexample :
    (compare_content_files 1
      (⟨[], some [(⟨"c", "txt"⟩, ⟨"x", 0⟩)],
        [(0, [(⟨"b", "txt"⟩, ⟨"y", 0⟩)])], []⟩ : FS)).map (fun s => s.changelog) =
    Except.ok [⟨"c", 1, "file removed"⟩] := rfl

/-- C4 (amended): during reconciliation a REMOVED event (one "file
removed" changelog entry) is emitted for exactly those stems present in
the Cache directory but absent from the current Content Store — the
History Store plays no part in the removed-stems computation. -/
theorem c4_removed_iff_in_cache_not_content (t : Nat) (fs fs' : FS)
    (hcmp : compare_content_files t fs = Except.ok fs') :
    ∃ es, fs'.changelog = fs.changelog ++ es ∧
      ∀ s : String, (⟨s, t, "file removed"⟩ : Entry) ∈ es ↔
        (s ∈ dir_stems (fs.cacheDir.getD []) ∧ s ∉ dir_stems fs.contentDir) := by
  obtain ⟨fsA, hfold, hfs'⟩ := compare_ok_decomp hcmp
  obtain ⟨hc, hk, es1, hes1, hm1⟩ := fold_new_basic t fs.contentDir fs fsA hfold
  obtain ⟨_, _, hlogF⟩ := fold_removed_basic t (removed_stems fsA) fsA
  have hrsA : removed_stems fsA = removed_stems fs := removed_stems_congr fsA fs hc hk
  refine ⟨es1 ++ (removed_stems fs).map (fun s => ⟨s, t, "file removed"⟩), ?_, ?_⟩
  · rw [hfs', hlogF, hes1, hrsA, List.append_assoc]
  · intro s
    constructor
    · intro hmem
      rcases List.mem_append.mp hmem with hmem | hmem
      · exfalso
        rcases (hm1 _ hmem).2 with h | h
        · exact absurd (show ("file removed" : String) = "file added" from h) (by decide)
        · exact absurd (show ("file removed" : String) = "#TODO" from h) (by decide)
      · obtain ⟨x, hx, hxe⟩ := List.mem_map.mp hmem
        have hxs : x = s := by injection hxe
        subst hxs
        unfold removed_stems at hx
        obtain ⟨hmemd, hpred⟩ := List.mem_filter.mp hx
        refine ⟨List.mem_dedup.mp hmemd, ?_⟩
        intro hcontra
        rw [Bool.not_eq_true'] at hpred
        rw [contains_iff_mem.mpr hcontra] at hpred
        exact absurd hpred (by decide)
    · intro hsc
      apply List.mem_append.mpr
      right
      apply List.mem_map.mpr
      refine ⟨s, ?_, rfl⟩
      unfold removed_stems
      apply List.mem_filter.mpr
      refine ⟨List.mem_dedup.mpr hsc.1, ?_⟩
      rw [Bool.not_eq_true']
      cases hcont : (dir_stems fs.contentDir).contains s
      · rfl
      · exact absurd (contains_iff_mem.mp hcont) hsc.2

/-- C4 witness: the amended statement at the counterexample input. -/
theorem c4_witness :
    compare_content_files 1
      (⟨[], some [(⟨"c", "txt"⟩, ⟨"x", 0⟩)],
        [(0, [(⟨"b", "txt"⟩, ⟨"y", 0⟩)])], []⟩ : FS) =
      Except.ok ⟨[], some [(⟨"c", "txt"⟩, ⟨"x", 0⟩)],
        [(1, [(⟨"c", "deleted"⟩, ⟨"", 1⟩)]), (0, [(⟨"b", "txt"⟩, ⟨"y", 0⟩)])],
        [⟨"c", 1, "file removed"⟩]⟩ ∧
    (∃ es, (FS.mk [] (some [(⟨"c", "txt"⟩, ⟨"x", 0⟩)])
        [(1, [(⟨"c", "deleted"⟩, ⟨"", 1⟩)]), (0, [(⟨"b", "txt"⟩, ⟨"y", 0⟩)])]
        [⟨"c", 1, "file removed"⟩]).changelog =
      (FS.mk [] (some [(⟨"c", "txt"⟩, ⟨"x", 0⟩)])
        [(0, [(⟨"b", "txt"⟩, ⟨"y", 0⟩)])] []).changelog ++ es ∧
      ∀ s : String, (⟨s, 1, "file removed"⟩ : Entry) ∈ es ↔
        (s ∈ dir_stems ((FS.mk [] (some [(⟨"c", "txt"⟩, ⟨"x", 0⟩)])
          [(0, [(⟨"b", "txt"⟩, ⟨"y", 0⟩)])] []).cacheDir.getD []) ∧
         s ∉ dir_stems (FS.mk [] (some [(⟨"c", "txt"⟩, ⟨"x", 0⟩)])
          [(0, [(⟨"b", "txt"⟩, ⟨"y", 0⟩)])] []).contentDir)) :=
  ⟨rfl, c4_removed_iff_in_cache_not_content 1 _ _ rfl⟩

/-- C6 counterexample: two distinct snapshot directories both hold a
file for stem "a"; lookup raises no error and returns the newer
candidate — contradicting "raises a consistency error rather than
returning either candidate".  (Holding several versions of a stem across
directories is the History Store's normal mode of operation.) -/
theorem c6_counterexample :
    find_latest [(1, [(⟨"a", "txt"⟩, ⟨"v1", 1⟩)]), (0, [(⟨"a", "txt"⟩, ⟨"v0", 0⟩)])] "a" =
    Except.ok (some (⟨"a", "txt"⟩, ⟨"v1", 1⟩)) := rfl

/-- C6 (amended): the consistency error fires only for two files with
the same stem inside a single snapshot directory; the same stem in two
distinct snapshot directories is the normal versioned case and lookup
returns the entry from the newest directory. -/
theorem c6_duplicate_in_one_dir_errors (s : String) (t t1 t2 : Nat) (d : Dir)
    (hist hist2 : List (Nat × Dir)) (f g : FileName × FileData) :
    (HistOrdered ((t, d) :: hist) → f ∈ d → g ∈ d → f ≠ g →
      f.1.stem = s → g.1.stem = s →
      ∃ msg, find_latest ((t, d) :: hist) s = Except.error msg) ∧
    (HistOrdered ((t1, [f]) :: (t2, [g]) :: hist2) → f.1.stem = s → g.1.stem = s →
      f.1.ext ≠ "deleted" →
      find_latest ((t1, [f]) :: (t2, [g]) :: hist2) s = Except.ok (some f)) := by
  constructor
  · intro hord hf hg hne hfs hgs
    rw [find_latest_eq_aux hord, find_latest_aux_cons]
    have hferr : ∃ msg, try_find_stem d s = Except.error msg := by
      unfold try_find_stem
      have hfmem : f ∈ d.filter (fun x => x.1.stem == s) :=
        List.mem_filter.mpr ⟨hf, beq_iff_eq.mpr hfs⟩
      have hgmem : g ∈ d.filter (fun x => x.1.stem == s) :=
        List.mem_filter.mpr ⟨hg, beq_iff_eq.mpr hgs⟩
      cases hft : d.filter (fun x => x.1.stem == s) with
      | nil => rw [hft] at hfmem; cases hfmem
      | cons a tl =>
        cases tl with
        | nil =>
          rw [hft] at hfmem hgmem
          exact absurd ((List.mem_singleton.mp hfmem).trans
            (List.mem_singleton.mp hgmem).symm) hne
        | cons b tl2 => exact ⟨_, rfl⟩
    obtain ⟨msg, hmsg⟩ := hferr
    rw [hmsg]
    exact ⟨msg, rfl⟩
  · intro hord hfs hgs hfext
    rw [find_latest_eq_aux hord, find_latest_aux_cons]
    have htfs : try_find_stem [f] s = Except.ok (some f) := by
      unfold try_find_stem
      have hfil : [f].filter (fun x => x.1.stem == s) = [f] := by
        simp [hfs]
      rw [hfil]
    rw [htfs]
    show (if (f.1.ext == "deleted") = true then Except.ok none else Except.ok (some f)) =
      Except.ok (some f)
    rw [if_neg (fun hc => hfext (beq_iff_eq.mp hc))]

/-- C6 witness: the amended statement at concrete inputs — a duplicated
stem inside one directory errors; the same stem across two directories
resolves to the newer file. -/
theorem c6_witness :
    (∃ msg, find_latest [(1, [(⟨"a", "txt"⟩, ⟨"x", 0⟩), (⟨"a", "md"⟩, ⟨"y", 0⟩)])] "a" =
      Except.error msg) ∧
    find_latest [(1, [(⟨"a", "txt"⟩, ⟨"v1", 1⟩)]), (0, [(⟨"a", "txt"⟩, ⟨"v0", 0⟩)])] "a" =
      Except.ok (some (⟨"a", "txt"⟩, ⟨"v1", 1⟩)) :=
  ⟨(c6_duplicate_in_one_dir_errors "a" 1 1 0
      [(⟨"a", "txt"⟩, ⟨"x", 0⟩), (⟨"a", "md"⟩, ⟨"y", 0⟩)] [] []
      (⟨"a", "txt"⟩, ⟨"x", 0⟩) (⟨"a", "md"⟩, ⟨"y", 0⟩)).1
      (by decide) (by decide) (by decide) (by decide) rfl rfl,
   (c6_duplicate_in_one_dir_errors "a" 1 1 0
      [(⟨"a", "txt"⟩, ⟨"x", 0⟩), (⟨"a", "md"⟩, ⟨"y", 0⟩)] [] []
      (⟨"a", "txt"⟩, ⟨"v1", 1⟩) (⟨"a", "txt"⟩, ⟨"v0", 0⟩)).2
      (by decide) rfl rfl (by decide)⟩

/-- C7: when the raw backward search finds a tombstone first (the most
recent history entry for the stem is a `.deleted` marker), `_find_latest`
reports the stem as not found; and if a file with that stem is present
in the current content, the reconciler emits a "file added" entry (not a
"#TODO" modification), copying the file into the run directory. -/
theorem c7_tombstone_latest_added (hist : List (Nat × Dir)) (s : String)
    (m f : FileName × FileData) (t : Nat) (lg : List Entry)
    (hfm : first_match_aux s (sort_dirs_desc hist) = Except.ok (some m))
    (htomb : m.1.ext = "deleted")
    (hfstem : f.1.stem = s) :
    find_latest hist s = Except.ok none ∧
    compare_content_files t ⟨[f], some [], hist, lg⟩ =
      Except.ok ⟨[f], some [], add_to_history_dir hist t (f.1, ⟨f.2.content, t⟩),
        lg ++ [⟨s, t, "file added"⟩]⟩ := by
  subst hfstem
  have h1 : find_latest hist f.1.stem = Except.ok none :=
    find_latest_aux_none_of_tomb (sort_dirs_desc hist) m hfm htomb
  refine ⟨h1, ?_⟩
  set fs : FS := ⟨[f], some [], hist, lg⟩ with hfsdef
  have hstep : process_new_file t fs f = Except.ok { fs with
      changelog := fs.changelog ++ [⟨f.1.stem, t, "file added"⟩],
      historyDirs := add_to_history_dir fs.historyDirs t (f.1, ⟨f.2.content, t⟩) } :=
    process_new_file_added h1
  have hfold : fs.contentDir.foldlM (process_new_file t) fs = Except.ok { fs with
      changelog := fs.changelog ++ [⟨f.1.stem, t, "file added"⟩],
      historyDirs := add_to_history_dir fs.historyDirs t (f.1, ⟨f.2.content, t⟩) } := by
    show ([f] : Dir).foldlM (process_new_file t) fs = _
    rw [List.foldlM_cons, hstep, except_ok_bind, List.foldlM_nil]
    rfl
  rw [compare_eq_of_fold hfold]
  rfl

/-- C7 witness: history whose newest entry for "y" is a tombstone; the
lookup reports not found and a reappearing "y" is recorded as ADDED. -/
theorem c7_witness :
    first_match_aux "y" (sort_dirs_desc
      [(3, [(⟨"y", "deleted"⟩, ⟨"", 3⟩)]), (1, [(⟨"y", "txt"⟩, ⟨"v", 1⟩)])]) =
      Except.ok (some (⟨"y", "deleted"⟩, ⟨"", 3⟩)) ∧
    find_latest [(3, [(⟨"y", "deleted"⟩, ⟨"", 3⟩)]), (1, [(⟨"y", "txt"⟩, ⟨"v", 1⟩)])] "y" =
      Except.ok none ∧
    compare_content_files 5
      (⟨[(⟨"y", "txt"⟩, ⟨"vv", 5⟩)], some [],
        [(3, [(⟨"y", "deleted"⟩, ⟨"", 3⟩)]), (1, [(⟨"y", "txt"⟩, ⟨"v", 1⟩)])], []⟩ : FS) =
      Except.ok ⟨[(⟨"y", "txt"⟩, ⟨"vv", 5⟩)], some [],
        add_to_history_dir
          [(3, [(⟨"y", "deleted"⟩, ⟨"", 3⟩)]), (1, [(⟨"y", "txt"⟩, ⟨"v", 1⟩)])] 5
          (⟨"y", "txt"⟩, ⟨"vv", 5⟩),
        [⟨"y", 5, "file added"⟩]⟩ :=
  ⟨rfl,
   (c7_tombstone_latest_added
      [(3, [(⟨"y", "deleted"⟩, ⟨"", 3⟩)]), (1, [(⟨"y", "txt"⟩, ⟨"v", 1⟩)])] "y"
      (⟨"y", "deleted"⟩, ⟨"", 3⟩) (⟨"y", "txt"⟩, ⟨"vv", 5⟩) 5 [] rfl rfl rfl).1,
   (c7_tombstone_latest_added
      [(3, [(⟨"y", "deleted"⟩, ⟨"", 3⟩)]), (1, [(⟨"y", "txt"⟩, ⟨"v", 1⟩)])] "y"
      (⟨"y", "deleted"⟩, ⟨"", 3⟩) (⟨"y", "txt"⟩, ⟨"vv", 5⟩) 5 [] rfl rfl rfl).2⟩

/-- C8: in one reconciliation run at a fresh timestamp over a
well-formed state, every emitted event appends exactly one changelog
entry and contributes exactly one artifact (content copy or tombstone)
to the single shared new snapshot directory `content_<t>` (the artifact
and entry counts agree), and a run with zero events creates no new
snapshot directory at all. -/
theorem c8_events_one_shared_dir (t : Nat) (fs fs' : FS)
    (hk : ∀ e ∈ fs.historyDirs, e.1 < t)
    (hord : HistOrdered fs.historyDirs)
    (hm : ∀ e ∈ fs.historyDirs, ∀ g ∈ e.2, g.2.mtime < t)
    (hn : (fs.contentDir.map (fun f => f.1.stem)).Nodup)
    (he : ∀ f ∈ fs.contentDir, f.1.ext ≠ "deleted")
    (hf : ∀ f ∈ fs.contentDir, f.2.mtime = t)
    (hcmp : compare_content_files t fs = Except.ok fs') :
    ∃ es allArts,
      fs'.changelog = fs.changelog ++ es ∧
      fs'.historyDirs = addArts fs.historyDirs t allArts ∧
      allArts.length = es.length ∧
      (es = [] → fs'.historyDirs = fs.historyDirs) := by
  obtain ⟨fsA, hfold, hfs'⟩ := compare_ok_decomp hcmp
  obtain ⟨arts2, es1, hhA, hartsA, hlogA, hlenA, _⟩ :=
    fold_new_char t fs.historyDirs hk hord hm fs.contentDir [] fs fsA rfl
      (by intro g hg; cases hg) hn he hf hfold
  rw [List.nil_append] at hhA
  obtain ⟨hcA, hkA, _⟩ := fold_new_basic t fs.contentDir fs fsA hfold
  have hrs_not_content : ∀ s ∈ removed_stems fsA, ∀ g ∈ arts2, g.1.stem ≠ s := by
    intro s hs g hg hcontra
    obtain ⟨_, _, hstem_in⟩ := hartsA g hg
    obtain ⟨_, hpred⟩ := List.mem_filter.mp hs
    rw [Bool.not_eq_true'] at hpred
    unfold dir_stems at hpred
    rw [hcA] at hpred
    have : (fs.contentDir.map (fun f => f.1.stem)).contains s = true :=
      contains_iff_mem.mpr (hcontra ▸ hstem_in)
    rw [this] at hpred
    exact absurd hpred (by decide)
  have hndrs : (removed_stems fsA).Nodup := List.Nodup.filter _ (List.nodup_dedup _)
  obtain ⟨tombs, hhF, hlenT⟩ := fold_removed_char t fs.historyDirs
    (fun e he2 => Nat.ne_of_lt (hk e he2)) (removed_stems fsA) fsA arts2 hhA
    hrs_not_content hndrs
  obtain ⟨_, _, hlogF⟩ := fold_removed_basic t (removed_stems fsA) fsA
  refine ⟨es1 ++ (removed_stems fsA).map (fun s => ⟨s, t, "file removed"⟩),
    arts2 ++ tombs, ?_, ?_, ?_, ?_⟩
  · rw [hfs', hlogF, hlogA, List.append_assoc]
  · rw [hfs', hhF]
  · rw [List.length_append, List.length_append, hlenA, hlenT, List.length_map]
  · intro hes
    obtain ⟨hes1, hmap⟩ := List.append_eq_nil.mp hes
    have harts : arts2 = [] := List.length_eq_zero.mp (by rw [← hlenA, hes1]; rfl)
    have hrs0 : removed_stems fsA = [] := List.map_eq_nil_iff.mp hmap
    have htombs : tombs = [] := List.length_eq_zero.mp (by rw [hlenT, hrs0]; rfl)
    rw [hfs', hhF, harts, htombs]
    rfl

/-- C8 witness: one run with one MODIFIED and one REMOVED event — two
changelog entries, two artifacts, one new snapshot directory. -/
theorem c8_witness :
    compare_content_files 5
      (⟨[(⟨"a", "txt"⟩, ⟨"new", 5⟩)], some [(⟨"b", "txt"⟩, ⟨"x", 0⟩)],
        [(0, [(⟨"a", "txt"⟩, ⟨"old", 0⟩)])], []⟩ : FS) =
      Except.ok ⟨[(⟨"a", "txt"⟩, ⟨"new", 5⟩)], some [(⟨"b", "txt"⟩, ⟨"x", 0⟩)],
        [(5, [(⟨"a", "txt"⟩, ⟨"new", 5⟩), (⟨"b", "deleted"⟩, ⟨"", 5⟩)]),
         (0, [(⟨"a", "txt"⟩, ⟨"old", 0⟩)])],
        [⟨"a", 5, "#TODO"⟩, ⟨"b", 5, "file removed"⟩]⟩ ∧
    (∃ es allArts,
      (FS.mk [(⟨"a", "txt"⟩, ⟨"new", 5⟩)] (some [(⟨"b", "txt"⟩, ⟨"x", 0⟩)])
        [(5, [(⟨"a", "txt"⟩, ⟨"new", 5⟩), (⟨"b", "deleted"⟩, ⟨"", 5⟩)]),
         (0, [(⟨"a", "txt"⟩, ⟨"old", 0⟩)])]
        [⟨"a", 5, "#TODO"⟩, ⟨"b", 5, "file removed"⟩]).changelog =
        (FS.mk [(⟨"a", "txt"⟩, ⟨"new", 5⟩)] (some [(⟨"b", "txt"⟩, ⟨"x", 0⟩)])
          [(0, [(⟨"a", "txt"⟩, ⟨"old", 0⟩)])] []).changelog ++ es ∧
      (FS.mk [(⟨"a", "txt"⟩, ⟨"new", 5⟩)] (some [(⟨"b", "txt"⟩, ⟨"x", 0⟩)])
        [(5, [(⟨"a", "txt"⟩, ⟨"new", 5⟩), (⟨"b", "deleted"⟩, ⟨"", 5⟩)]),
         (0, [(⟨"a", "txt"⟩, ⟨"old", 0⟩)])]
        [⟨"a", 5, "#TODO"⟩, ⟨"b", 5, "file removed"⟩]).historyDirs =
        addArts (FS.mk [(⟨"a", "txt"⟩, ⟨"new", 5⟩)] (some [(⟨"b", "txt"⟩, ⟨"x", 0⟩)])
          [(0, [(⟨"a", "txt"⟩, ⟨"old", 0⟩)])] []).historyDirs 5 allArts ∧
      allArts.length = es.length ∧
      (es = [] → (FS.mk [(⟨"a", "txt"⟩, ⟨"new", 5⟩)] (some [(⟨"b", "txt"⟩, ⟨"x", 0⟩)])
        [(5, [(⟨"a", "txt"⟩, ⟨"new", 5⟩), (⟨"b", "deleted"⟩, ⟨"", 5⟩)]),
         (0, [(⟨"a", "txt"⟩, ⟨"old", 0⟩)])]
        [⟨"a", 5, "#TODO"⟩, ⟨"b", 5, "file removed"⟩]).historyDirs =
        (FS.mk [(⟨"a", "txt"⟩, ⟨"new", 5⟩)] (some [(⟨"b", "txt"⟩, ⟨"x", 0⟩)])
          [(0, [(⟨"a", "txt"⟩, ⟨"old", 0⟩)])] []).historyDirs)) :=
  ⟨rfl, c8_events_one_shared_dir 5 _ _ (by decide) (by decide) (by decide) (by decide)
    (by decide) (by decide) rfl⟩

/-- C9: `_move_content_to_cache` unconditionally destroys any
pre-existing cache directory (its result does not depend on the old
cache contents `c`) and moves the whole Content Store into the fresh
cache; in particular a run started with a leftover cache and an empty
Content Store (an interrupted prior run) loses the leftover content and
gets an empty cache. -/
theorem c9_cache_clobbered (c cd : Dir) (h : List (Nat × Dir)) (lg : List Entry) :
    move_content_to_cache ⟨cd, some c, h, lg⟩ = ⟨[], some cd, h, lg⟩ ∧
    move_content_to_cache ⟨[], some c, h, lg⟩ = ⟨[], some [], h, lg⟩ :=
  ⟨rfl, rfl⟩

/-- C10: the report tool parses only `log_entries[1:]` — the first
changelog line is skipped as if it were a header, so the first entry
ever appended never reaches the stem-to-changes mapping (a one-line
changelog yields an empty mapping). -/
theorem c10_first_line_skipped (first : String) (rest : List String) :
    map_changes_to_filenames (first :: rest) = process_log_entries rest ∧
    map_changes_to_filenames ["a\t250101\tfile added"] = Except.ok [] :=
  ⟨rfl, rfl⟩

end UTCC
